import Mathlib

/-!
Verification of the gitalyzer backend against its specification.

The Python sources (`backend/github_client.py`, `backend/ai_agent.py`,
`backend/pdf_generator.py`, `backend/main.py`) are shallowly embedded below.
Python strings are modelled as `List Char` (named `Str`); the Python string
operations used by the code (`strip`, `rstrip`, `split`, `startswith`,
`endswith`, substring membership) are reimplemented with the same semantics.
The PDF library is modelled as a recorder of drawing operations: `build_pdf`
returns the sequence of drawing commands the source issues, which is the
content of the rendered document; the final serialization step
`pdf.output(dest="S").encode("latin-1")` is modelled by `build_pdf_bytes`,
which renders that stream and appends the document-information dictionary
into which the library embeds the clock reading taken at serialization
time as `/CreationDate` — the clock reading is an explicit input of the
pure model.  Pydantic validation of the narrative
schema is modelled over a small JSON value type, following pydantic v2
default behaviour (missing list fields default to the empty list, extra
fields are ignored, scalar fields are required).
-/

/-- Python strings are modelled as lists of characters. -/
abbrev Str := List Char

/-- Python `str.lstrip()` (no argument): drop leading whitespace. -/
def lstripWS (s : Str) : Str := s.dropWhile Char.isWhitespace

/-- Drop trailing characters satisfying `p`, like Python `str.rstrip`. -/
def rstripP (p : Char → Bool) (s : Str) : Str := (s.reverse.dropWhile p).reverse

/-- Python `str.strip()` (no argument): drop leading and trailing whitespace. -/
def pyStrip (s : Str) : Str := rstripP Char.isWhitespace (lstripWS s)

/-- Python `str.rstrip("/")`: drop trailing slashes. -/
def rstripSlash (s : Str) : Str := rstripP (fun c => c = '/') s

/-- Python substring membership `sep in s` (true for the empty `sep`). -/
def containsSub (sep : Str) : Str → Bool
  | [] => sep.isEmpty
  | c :: cs => sep.isPrefixOf (c :: cs) || containsSub sep cs

/-- Fuel-driven worker for Python `str.split(sep)` (non-empty separator).
The fuel makes the definition structurally recursive so that it reduces
definitionally on concrete inputs; `pySplit` supplies fuel `s.length`,
which is always sufficient. -/
def pySplitAux (sep : Str) : Nat → Str → List Str
  | _, [] => [[]]
  | 0, s => [s]
  | fuel + 1, c :: cs =>
    if sep.isPrefixOf (c :: cs) then
      [] :: pySplitAux sep fuel ((c :: cs).drop sep.length)
    else
      match pySplitAux sep fuel cs with
      | [] => [[c]]
      | h :: t => (c :: h) :: t

/-- Python `str.split(sep)`: split on every occurrence of a separator,
scanning left to right.  Python raises on an empty separator; the guard
returns the string whole in that (unused) case. -/
def pySplit (sep s : Str) : List Str :=
  if sep = [] then [s] else pySplitAux sep s.length s

/-- The tail of a string after its first `':'`, i.e. the `[1]` component of
Python `line.split(":", 1)` (empty when no colon is present; the source only
applies it to lines that start with a label containing a colon). -/
def afterFirstColon : Str → Str
  | [] => []
  | c :: cs => if c = ':' then cs else afterFirstColon cs

/-- Rendering of a natural number, as Python `str`/f-string formatting. -/
def natStr (n : Nat) : Str := (Nat.repr n).toList

/-- Python truthiness of an optional string: `None` and `""` are falsy. -/
def truthy : Option Str → Bool
  | none => false
  | some s => !s.isEmpty

/-- Python `a or b` for an optional string `a` and default string `b`. -/
def orDefault (a : Option Str) (b : Str) : Str :=
  match a with
  | some s => if s = [] then b else s
  | none => b

/-- Python `a or b` where both operands are optional strings. -/
def pyOr (a b : Option Str) : Option Str :=
  match a with
  | some s => if s = [] then b else some s
  | none => b

/-- Rendering of an optional string inside an f-string: `None` prints as
the four characters `None`. -/
def pyShow (a : Option Str) : Str :=
  match a with
  | some s => s
  | none => "None".toList

/-! ## Document renderer (`backend/pdf_generator.py`)

The `FPDF` object is modelled as a recorder: every drawing call the Python
code makes is an element of the resulting operation list, in order.  The
page added by `add_page` triggers the `header` override at the start, and
the `footer` override runs when the document is closed at `output`. -/

/-- One drawing command issued to the PDF layout engine. -/
inductive PdfOp where
  | addPage : PdfOp
  | setFont (family style : Str) (size : Nat) : PdfOp
  | setTextColor (r g b : Nat) : PdfOp
  | setY (y : Int) : PdfOp
  | cell (w h : Nat) (text : Str) (ln : Bool) (align : Str) : PdfOp
  | multiCell (w h : Nat) (text : Str) : PdfOp
  | ln (h : Nat) : PdfOp
deriving DecidableEq

/-- One glossary entry of the narrative (`GlossaryItem` in `main.py`). -/
structure GlossaryItem where
  term : Str
  definition : Str
deriving DecidableEq

/-- The structured narrative (`RepositoryAnalysis` in `main.py`; the dict
handed to `build_pdf` by `analysis.model_dump()` has exactly these keys). -/
structure Narrative where
  project_summary : Str
  how_it_helps_people : Str
  main_features : List Str
  how_it_works : List Str
  tech_stack : List Str
  getting_started : List Str
  next_steps : List Str
  glossary : List GlossaryItem
deriving DecidableEq

/-- Operations of the per-page `header` override of `AnalysisPDF`. -/
def headerOps : List PdfOp :=
  [.setFont "Helvetica".toList "B".toList 16,
   .setTextColor 40 40 40,
   .cell 0 10 "Gitalyzer Report".toList true "C".toList,
   .ln 4]

/-- Operations of the per-page `footer` override of `AnalysisPDF`. -/
def footerOps (page : Nat) : List PdfOp :=
  [.setY (-15),
   .setFont "Helvetica".toList "".toList 8,
   .setTextColor 120 120 120,
   .cell 0 10 ("Page ".toList ++ natStr page) false "C".toList]

/-- Embedding of `_write_section`: always draws the section title; draws
the body only when it is truthy (present and non-empty). -/
def _write_section (title : Str) (body : Option Str) : List PdfOp :=
  [.setFont "Helvetica".toList "B".toList 13,
   .setTextColor 40 40 40,
   .multiCell 0 8 title,
   .ln 1]
  ++ (if truthy body then
        [.setFont "Helvetica".toList "".toList 11,
         .setTextColor 10 10 10,
         .multiCell 0 6 (body.getD []),
         .ln 2]
      else [])

/-- Embedding of `_write_list`: one bulleted `multi_cell` per item.  The
bullet prefix reproduces the literal bytes of the source file. -/
def _write_list (items : List Str) : List PdfOp :=
  [.setFont "Helvetica".toList "".toList 11,
   .setTextColor 10 10 10]
  ++ items.map (fun item => PdfOp.multiCell 0 6 ("â€¢ ".toList ++ item))
  ++ [.ln 2]

/-- Drawing operations of one glossary entry that passed the
`if term and definition` guard in `build_pdf`. -/
def glossaryEntryOpsKept (e : GlossaryItem) : List PdfOp :=
  [.setFont "Helvetica".toList "B".toList 11,
   .multiCell 0 6 e.term,
   .setFont "Helvetica".toList "".toList 11,
   .multiCell 0 6 e.definition,
   .ln 1]

/-- Drawing operations of one glossary entry, including the
`if term and definition` guard of the source loop. -/
def glossaryEntryOps (e : GlossaryItem) : List PdfOp :=
  if e.term ≠ [] ∧ e.definition ≠ [] then glossaryEntryOpsKept e else []

/-- The glossary portion of `build_pdf`: heading plus the per-entry loop,
all omitted when the glossary list is empty. -/
def glossarySection (g : List GlossaryItem) : List PdfOp :=
  if g ≠ [] then
    _write_section "Glossary".toList none ++ g.flatMap glossaryEntryOps
  else []

/-- Embedding of `build_pdf`: the ordered drawing operations of the
rendered document, header first and footer (single page) last. -/
def build_pdf (repo_name : Str) (analysis : Narrative) : List PdfOp :=
  [PdfOp.addPage] ++ headerOps
  ++ [.setFont "Helvetica".toList "B".toList 18,
      .cell 0 12 (if repo_name = [] then "Repository Report".toList else repo_name) true [],
      .ln 4]
  ++ (if analysis.project_summary ≠ [] then
        _write_section "Project Summary".toList (some analysis.project_summary)
      else [])
  ++ _write_section "How it helps people".toList (some analysis.how_it_helps_people)
  ++ (if analysis.main_features ≠ [] then
        _write_section "Main features".toList none ++ _write_list analysis.main_features
      else [])
  ++ (if analysis.how_it_works ≠ [] then
        _write_section "How it works".toList none ++ _write_list analysis.how_it_works
      else [])
  ++ (if analysis.tech_stack ≠ [] then
        _write_section "Tech explained simply".toList none ++ _write_list analysis.tech_stack
      else [])
  ++ (if analysis.getting_started ≠ [] then
        _write_section "Getting started".toList none ++ _write_list analysis.getting_started
      else [])
  ++ (if analysis.next_steps ≠ [] then
        _write_section "Next steps".toList none ++ _write_list analysis.next_steps
      else [])
  ++ glossarySection analysis.glossary
  ++ footerOps 1

/-- A narrative with every field empty, as in claim C1. -/
def emptyNarrative : Narrative :=
  { project_summary := [], how_it_helps_people := [], main_features := [],
    how_it_works := [], tech_stack := [], getting_started := [],
    next_steps := [], glossary := [] }

/-- C1 counterexample: on the all-empty narrative, `build_pdf` still draws
the section heading "How it helps people" (the call to `_write_section` for
that section is unconditional in the source), so the document is not
limited to the title and the page header/footer. -/
theorem c1_counterexample :
    PdfOp.multiCell 0 8 "How it helps people".toList ∈
      build_pdf "demo".toList emptyNarrative := by
  decide

/-- C1 (amended): for every narrative whose list fields are all empty and
whose two text fields are empty, the document contains exactly the page
header, the title line, the unconditional "How it helps people" section
heading (with no body), and the footer; no other section heading appears. -/
theorem c1_amended (repo_name : Str) (n : Narrative)
    (h1 : n.project_summary = []) (h2 : n.how_it_helps_people = [])
    (h3 : n.main_features = []) (h4 : n.how_it_works = [])
    (h5 : n.tech_stack = []) (h6 : n.getting_started = [])
    (h7 : n.next_steps = []) (h8 : n.glossary = []) :
    build_pdf repo_name n =
      [PdfOp.addPage] ++ headerOps
      ++ [.setFont "Helvetica".toList "B".toList 18,
          .cell 0 12 (if repo_name = [] then "Repository Report".toList else repo_name) true [],
          .ln 4]
      ++ [.setFont "Helvetica".toList "B".toList 13,
          .setTextColor 40 40 40,
          .multiCell 0 8 "How it helps people".toList,
          .ln 1]
      ++ footerOps 1 := by
  simp [build_pdf, h1, h2, h3, h4, h5, h6, h7, h8, _write_section, truthy,
    glossarySection]

/-- C1 witness: the amended theorem evaluated at the all-empty narrative. -/
theorem c1_witness :
    build_pdf "demo".toList emptyNarrative =
      [PdfOp.addPage] ++ headerOps
      ++ [.setFont "Helvetica".toList "B".toList 18,
          .cell 0 12 (if ("demo".toList : Str) = [] then "Repository Report".toList else "demo".toList) true [],
          .ln 4]
      ++ [.setFont "Helvetica".toList "B".toList 13,
          .setTextColor 40 40 40,
          .multiCell 0 8 "How it helps people".toList,
          .ln 1]
      ++ footerOps 1 :=
  c1_amended "demo".toList emptyNarrative rfl rfl rfl rfl rfl rfl rfl rfl

/-- Serialized form of one drawing operation inside the output byte
stream.  The PDF library's exact content-stream grammar is abstracted to
a simple injective tagged encoding; which bytes an operation becomes is
irrelevant to the claims, only that equal operation streams serialize to
equal bytes. -/
def pdfOpBytes : PdfOp → Str
  | .addPage => "ap;".toList
  | .setFont fam sty sz =>
    "sf(".toList ++ fam ++ ")(".toList ++ sty ++ ")".toList ++ natStr sz ++ [';']
  | .setTextColor r g b =>
    "tc".toList ++ natStr r ++ [','] ++ natStr g ++ [','] ++ natStr b ++ [';']
  | .setY y =>
    "sy".toList ++ (if y < 0 then '-' :: natStr y.natAbs else natStr y.natAbs) ++ [';']
  | .cell w h text ln align =>
    "ce".toList ++ natStr w ++ [','] ++ natStr h ++ '(' :: text
      ++ ")".toList ++ (if ln then "T".toList else "F".toList)
      ++ '(' :: align ++ ");".toList
  | .multiCell w h text =>
    "mc".toList ++ natStr w ++ [','] ++ natStr h ++ '(' :: text ++ ");".toList
  | .ln h => "ln".toList ++ natStr h ++ [';']

/-- The byte serialization step of `build_pdf`, the source's
`pdf.output(dest="S").encode("latin-1")` (pdf_generator.py line 95).
PyFPDF's `output` renders the recorded operations and writes a
document-information dictionary into which `_putinfo` embeds the clock
reading taken at serialization time, `datetime.now()`, as
`/CreationDate (D:YYYYMMDDHHMMSS)`.  The clock reading is therefore an
explicit input `now` of the pure model: the serialized document is the
rendered content followed by the information dictionary carrying `now`. -/
def build_pdf_bytes (repo_name : Str) (analysis : Narrative) (now : Str) : Str :=
  "%PDF-1.3\n".toList
  ++ (build_pdf repo_name analysis).flatMap pdfOpBytes
  ++ "/Producer (PyFPDF)/CreationDate (D:".toList ++ now ++ ")\n%%EOF".toList

/-- C3 counterexample: two calls of `build_pdf` with the identical
repo_name and narrative do not yield byte-identical output when the clock
has ticked between the two serializations — the library embeds the
current time as `/CreationDate`, so the bytes differ. -/
theorem c3_counterexample :
    build_pdf_bytes "repo".toList emptyNarrative "20240101120000".toList
      ≠ build_pdf_bytes "repo".toList emptyNarrative "20240101120001".toList := by
  set_option maxRecDepth 8000 in decide

/-- C3 (amended): rendering is deterministic up to the embedded creation
timestamp — two calls on identical `repo_name` and narrative inputs issue
the identical drawing-operation stream, and the serialized output is
byte-identical whenever the clock reading embedded at serialization time
is also identical; the timestamp is the only nondeterministic input. -/
theorem c3_amended (n₁ n₂ : Str) (a₁ a₂ : Narrative) (t₁ t₂ : Str)
    (hn : n₁ = n₂) (ha : a₁ = a₂) :
    build_pdf n₁ a₁ = build_pdf n₂ a₂
    ∧ (t₁ = t₂ → build_pdf_bytes n₁ a₁ t₁ = build_pdf_bytes n₂ a₂ t₂) := by
  subst hn
  subst ha
  exact ⟨rfl, fun ht => by rw [ht]⟩

/-- C3 witness: the amended determinism instantiated at a concrete input
and a concrete shared clock reading. -/
theorem c3_witness :
    build_pdf "repo".toList emptyNarrative = build_pdf "repo".toList emptyNarrative
    ∧ build_pdf_bytes "repo".toList emptyNarrative "20240101120000".toList
        = build_pdf_bytes "repo".toList emptyNarrative "20240101120000".toList :=
  ⟨(c3_amended "repo".toList "repo".toList emptyNarrative emptyNarrative
      "20240101120000".toList "20240101120000".toList rfl rfl).1,
   (c3_amended "repo".toList "repo".toList emptyNarrative emptyNarrative
      "20240101120000".toList "20240101120000".toList rfl rfl).2 rfl⟩

/-- Helper: the per-entry loop of the glossary renders exactly the entries
whose term and definition are both non-empty. -/
theorem glossary_flatMap_filter (g : List GlossaryItem) :
    g.flatMap glossaryEntryOps =
      (g.filter (fun e => e.term ≠ [] ∧ e.definition ≠ [])).flatMap glossaryEntryOpsKept := by
  induction g with
  | nil => rfl
  | cons e g ih =>
    by_cases he : e.term ≠ [] ∧ e.definition ≠ []
    · simp [glossaryEntryOps, he, ih, List.filter_cons]
    · simp [glossaryEntryOps, he, ih, List.filter_cons]

/-- C10: in the rendered document, a glossary entry with an empty term or
an empty definition is skipped entirely — the glossary loop emits exactly
the operations of the entries whose term and definition are both
non-empty — while the "Glossary" heading is drawn whenever the glossary
list is non-empty. -/
theorem c10_glossary (repo_name : Str) (n : Narrative) :
    (n.glossary ≠ [] →
      PdfOp.multiCell 0 8 "Glossary".toList ∈ build_pdf repo_name n)
    ∧ glossarySection n.glossary =
        (if n.glossary ≠ [] then
          _write_section "Glossary".toList none
          ++ (n.glossary.filter
                (fun e => e.term ≠ [] ∧ e.definition ≠ [])).flatMap glossaryEntryOpsKept
         else []) := by
  constructor
  · intro hg
    have : PdfOp.multiCell 0 8 "Glossary".toList ∈ glossarySection n.glossary := by
      simp [glossarySection, hg, _write_section, truthy]
    simp only [build_pdf, List.mem_append]
    tauto
  · rw [glossarySection, glossary_flatMap_filter]

/-- A sample narrative whose glossary holds one complete entry and one
entry with an empty definition. -/
def glossaryDemoNarrative : Narrative :=
  { emptyNarrative with
      glossary := [⟨"API".toList, "An interface.".toList⟩, ⟨"Repo".toList, []⟩] }

/-- C10 witness: the theorem applied to a concrete narrative with a
non-empty glossary containing an incomplete entry. -/
theorem c10_witness :
    PdfOp.multiCell 0 8 "Glossary".toList ∈
      build_pdf "demo".toList glossaryDemoNarrative :=
  (c10_glossary "demo".toList glossaryDemoNarrative).1 (by decide)

/-! ## Narrative generator fallback (`backend/ai_agent.py`)

`generate_rule_based_summary` scans the context text line by line for the
`Description:` and `Languages:` labels and otherwise returns fixed,
hand-authored template text. -/

/-- The stripped, non-empty lines of a context text, as computed by
`[line.strip() for line in context.splitlines() if line.strip()]`. -/
def cleanedLines (context : Str) : List Str :=
  ((pySplit ['\n'] context).map pyStrip).filter (fun l => l ≠ [])

/-- The first line carrying a given label prefix, as in the source's
`next((... for line in lines if line.startswith(prefix)), ...)`. -/
def firstLabeled (lines : List Str) (pre : Str) : Option Str :=
  lines.find? (fun l => pre.isPrefixOf l)

/-- The stripped value after the first matching label line's first colon
(`line.split(":", 1)[1].strip()`), or the empty string when no line
carries the label. -/
def labelValue (context : Str) (pre : Str) : Str :=
  match firstLabeled (cleanedLines context) pre with
  | some l => pyStrip (afterFirstColon l)
  | none => []

/-- Embedding of `generate_rule_based_summary`: the deterministic fallback
narrative, with the description and languages lifted from the context. -/
def generate_rule_based_summary (context : Str) : Narrative :=
  let description := labelValue context "Description:".toList
  let languages := labelValue context "Languages:".toList
  let headline :=
    if description = [] then
      "This repository does not include a description on GitHub.".toList
    else description
  { project_summary := headline,
    how_it_helps_people :=
      ("This project could be useful to people who are interested in exploring the code base. "
        ++ "Provide an OpenAI API key to unlock a tailored explanation.").toList,
    main_features :=
      ["Automatic GitHub metadata gathering".toList,
       "Displays the README excerpt if one exists".toList,
       "Summarises recent commit messages for a quick update".toList],
    how_it_works :=
      ["The app downloads information directly from GitHub using their public API.".toList,
       "It organises the repository details, language statistics, and README summary.".toList,
       "Without an AI key it falls back to this simple overview to keep the experience working.".toList],
    tech_stack :=
      ["GitHub topics: ".toList ++ (if languages = [] then "Not specified".toList else languages),
       "Primary language reported by GitHub: ".toList
         ++ (if languages = [] then "Unknown".toList else (pySplit [','] languages).headD []),
       "Recent commits are highlighted to show ongoing work.".toList],
    getting_started :=
      ["Paste a public GitHub repository URL into the form.".toList,
       "Optionally provide an OpenAI API key so the AI guide can craft a custom explanation.".toList,
       "Review the generated summary online or export it as a PDF.".toList],
    next_steps :=
      ["Add an OpenAI API key to unlock richer, human-friendly storytelling.".toList,
       "Share the generated PDF with teammates who need a high-level overview.".toList,
       "Explore the README and commits directly on GitHub for deeper technical context.".toList],
    glossary :=
      [⟨"Repository".toList, "A storage space on GitHub that holds a project's files.".toList⟩,
       ⟨"Commit".toList, "A snapshot of changes developers save to the project.".toList⟩,
       ⟨"README".toList, "A document that usually explains what the project is about.".toList⟩] }

/-- C6: for every context text whose first `Description:`-labelled line is
`Description: Foo bar.` and whose first `Languages:`-labelled line is
`Languages: Python (900), Go (100)`, the fallback narrative's
`project_summary` is `Foo bar.` and its first `tech_stack` entry contains
the substring `Python`. -/
theorem c6_fallback_extraction (context : Str)
    (hd : firstLabeled (cleanedLines context) "Description:".toList =
            some "Description: Foo bar.".toList)
    (hl : firstLabeled (cleanedLines context) "Languages:".toList =
            some "Languages: Python (900), Go (100)".toList) :
    (generate_rule_based_summary context).project_summary = "Foo bar.".toList
    ∧ containsSub "Python".toList
        ((generate_rule_based_summary context).tech_stack.headD []) = true := by
  have h1 : labelValue context "Description:".toList = "Foo bar.".toList := by
    rw [labelValue, hd]; decide
  have h2 : labelValue context "Languages:".toList = "Python (900), Go (100)".toList := by
    rw [labelValue, hl]; decide
  rw [generate_rule_based_summary]
  rw [h1, h2]
  exact ⟨rfl, by decide⟩

/-- A concrete context exercising claim C6. -/
def c6Context : Str :=
  ("Repository: demo/demo\nDescription: Foo bar.\nLanguages: Python (900), Go (100)").toList

/-- C6 witness: the theorem applied to a concrete three-line context. -/
theorem c6_witness :
    (generate_rule_based_summary c6Context).project_summary = "Foo bar.".toList
    ∧ containsSub "Python".toList
        ((generate_rule_based_summary c6Context).tech_stack.headD []) = true :=
  c6_fallback_extraction c6Context (by decide) (by decide)

/-! ## Properties of the string primitives

The lemmas below characterise `pySplit`, `pyStrip` and friends on the
shapes of input the claims are about. -/

/-- The split worker never returns an empty list of parts. -/
theorem pySplitAux_ne_nil (sep : Str) (f : Nat) (s : Str) :
    pySplitAux sep f s ≠ [] := by
  match f, s with
  | _, [] => simp [pySplitAux]
  | 0, c :: cs => simp [pySplitAux]
  | f + 1, c :: cs =>
    rw [pySplitAux]
    split
    · simp
    · split <;> simp

/-- The function `pySplit` never returns an empty list of parts. -/
theorem pySplit_ne_nil (sep s : Str) : pySplit sep s ≠ [] := by
  rw [pySplit]
  split
  · simp
  · exact pySplitAux_ne_nil sep s.length s

/-- For a non-empty separator, the worker ignores the exact amount of fuel
as long as it is at least the length of the string. -/
theorem pySplitAux_fuel (sep : Str) (hsep : sep ≠ []) :
    ∀ f g s, s.length ≤ f → s.length ≤ g →
      pySplitAux sep f s = pySplitAux sep g s := by
  intro f
  induction f with
  | zero =>
    intro g s hf _
    have : s = [] := List.eq_nil_of_length_eq_zero (Nat.le_zero.mp hf)
    subst this
    cases g <;> simp [pySplitAux]
  | succ f ih =>
    intro g s hf hg
    match s with
    | [] => cases g <;> simp [pySplitAux]
    | c :: cs =>
      match g with
      | 0 => simp at hg
      | g + 1 =>
        rw [pySplitAux, pySplitAux]
        have hlsep : 1 ≤ sep.length := by
          cases sep with
          | nil => exact absurd rfl hsep
          | cons a as => simp
        split
        · have hd : ((c :: cs).drop sep.length).length ≤ f := by
            simp only [List.length_drop]
            omega
          have hd' : ((c :: cs).drop sep.length).length ≤ g := by
            simp only [List.length_drop]
            omega
          rw [ih _ _ hd hd']
        · have hc : cs.length ≤ f := by simp at hf; omega
          have hc' : cs.length ≤ g := by simp at hg; omega
          rw [ih _ _ hc hc']

/-- A string containing no occurrence of the separator is returned whole. -/
theorem pySplitAux_noOccur (sep : Str) :
    ∀ f s, s.length ≤ f → containsSub sep s = false →
      pySplitAux sep f s = [s] := by
  intro f
  induction f with
  | zero =>
    intro s hf _
    have : s = [] := List.eq_nil_of_length_eq_zero (Nat.le_zero.mp hf)
    subst this
    rfl
  | succ f ih =>
    intro s hf hno
    match s with
    | [] => rfl
    | c :: cs =>
      rw [containsSub] at hno
      simp only [Bool.or_eq_false_iff] at hno
      rw [pySplitAux]
      rw [hno.1]
      simp only [Bool.false_eq_true, if_false]
      have hc : cs.length ≤ f := by simp at hf; omega
      rw [ih cs hc hno.2]

/-- A string containing no occurrence of the separator is returned whole. -/
theorem pySplit_noOccur (sep s : Str) (h : containsSub sep s = false) :
    pySplit sep s = [s] := by
  have hsep : sep ≠ [] := by
    intro he
    subst he
    cases s <;> simp [containsSub, List.isPrefixOf] at h
  rw [pySplit, if_neg hsep]
  exact pySplitAux_noOccur sep s.length s (Nat.le_refl _) h

/-- Splitting a string that starts with the separator emits an empty part
and continues after the separator. -/
theorem pySplit_sep_append (sep t : Str) (hsep : sep ≠ []) :
    pySplit sep (sep ++ t) = [] :: pySplit sep t := by
  cases sep with
  | nil => exact absurd rfl hsep
  | cons d ds =>
    simp only [pySplit, if_neg hsep]
    have hlen : ((d :: ds) ++ t).length = t.length + ds.length + 1 := by
      simp [List.length_append]
      omega
    rw [hlen]
    show pySplitAux (d :: ds) (t.length + ds.length + 1) (d :: (ds ++ t)) = _
    rw [pySplitAux]
    have hpre : (d :: ds).isPrefixOf (d :: (ds ++ t)) = true := by
      rw [List.isPrefixOf_iff_prefix]
      exact List.prefix_append (d :: ds) t
    rw [hpre]
    simp only [if_true]
    have hdrop : (d :: (ds ++ t)).drop (d :: ds).length = t := by
      show ((d :: ds) ++ t).drop (d :: ds).length = t
      exact List.drop_left (d :: ds) t
    rw [hdrop]
    rw [pySplitAux_fuel (d :: ds) hsep (t.length + ds.length) t.length t
      (by omega) (Nat.le_refl _)]

/-- Scanning across a region in which no occurrence of the separator
begins only lengthens the first part of the split of the remainder. -/
theorem pySplit_prepend_noMatch (sep rest : Str) (hsep : sep ≠ []) :
    ∀ pre, (∀ u, u ≠ [] → u <:+ pre → sep.isPrefixOf (u ++ rest) = false) →
      pySplit sep (pre ++ rest) =
        (pre ++ (pySplit sep rest).headD []) :: (pySplit sep rest).tail := by
  have main : ∀ pre f, (pre ++ rest).length ≤ f →
      (∀ u, u ≠ [] → u <:+ pre → sep.isPrefixOf (u ++ rest) = false) →
      pySplitAux sep f (pre ++ rest) =
        (pre ++ (pySplit sep rest).headD []) :: (pySplit sep rest).tail := by
    intro pre
    induction pre with
    | nil =>
      intro f hf _
      simp only [List.nil_append] at hf ⊢
      rw [pySplit, if_neg hsep]
      rw [pySplitAux_fuel sep hsep f rest.length rest hf (Nat.le_refl _)]
      match hr : pySplitAux sep rest.length rest with
      | [] => exact absurd hr (pySplitAux_ne_nil sep rest.length rest)
      | h :: t => rfl
    | cons c pre ih =>
      intro f hf hnm
      match f with
      | 0 => simp at hf
      | f + 1 =>
        show pySplitAux sep (f + 1) (c :: (pre ++ rest)) = _
        rw [pySplitAux]
        have hpre : sep.isPrefixOf ((c :: pre) ++ rest) = false :=
          hnm (c :: pre) (by simp) (List.suffix_refl _)
        simp only [List.cons_append] at hpre
        rw [hpre]
        simp only [Bool.false_eq_true, if_false]
        have hlen : (pre ++ rest).length ≤ f := by
          simp only [List.cons_append, List.length_cons] at hf
          omega
        have hnm' : ∀ u, u ≠ [] → u <:+ pre → sep.isPrefixOf (u ++ rest) = false := by
          intro u hu hsuf
          exact hnm u hu (hsuf.trans (List.suffix_cons c pre))
        rw [ih f hlen hnm']
        simp
  intro pre hnm
  rw [pySplit, if_neg hsep]
  exact main pre (pre ++ rest).length (Nat.le_refl _) hnm

/-- Substring membership holds exactly when some suffix of the string
starts with the pattern. -/
theorem containsSub_iff (sep s : Str) :
    containsSub sep s = true ↔ ∃ t, t <:+ s ∧ sep <+: t := by
  induction s with
  | nil =>
    simp only [containsSub, List.isEmpty_iff, List.suffix_nil]
    constructor
    · intro h
      exact ⟨[], rfl, by simp [h]⟩
    · rintro ⟨t, rfl, hpre⟩
      exact List.prefix_nil.mp hpre
  | cons c cs ih =>
    rw [containsSub]
    simp only [Bool.or_eq_true, List.isPrefixOf_iff_prefix, ih]
    constructor
    · rintro (h | ⟨t, hsuf, hpre⟩)
      · exact ⟨c :: cs, List.suffix_refl _, h⟩
      · exact ⟨t, hsuf.trans (List.suffix_cons c cs), hpre⟩
    · rintro ⟨t, hsuf, hpre⟩
      rcases List.suffix_cons_iff.mp hsuf with rfl | hsuf'
      · exact Or.inl hpre
      · exact Or.inr ⟨t, hsuf', hpre⟩

/-- A non-empty prefix pattern occurs in any string that carries it after
an arbitrary prefix region. -/
theorem containsSub_of_append (pat mid : Str) (hp : pat <+: mid)
    (a b : Str) : containsSub pat (a ++ mid ++ b) = true := by
  rw [containsSub_iff]
  refine ⟨mid ++ b, ?_, hp.trans (List.prefix_append mid b)⟩
  rw [List.append_assoc]
  exact List.suffix_append a (mid ++ b)

/-- Dropping leading whitespace keeps a string whose head is not
whitespace. -/
theorem lstripWS_cons (c : Char) (t : Str) (h : c.isWhitespace = false) :
    lstripWS (c :: t) = c :: t := by
  rw [lstripWS, List.dropWhile_cons, h]
  simp

/-- Dropping while over an append whose first part fully satisfies the
predicate continues into the second part. -/
theorem dropWhile_append_sat (p : Char → Bool) :
    ∀ v w : Str, (∀ c ∈ v, p c = true) →
      List.dropWhile p (v ++ w) = List.dropWhile p w := by
  intro v
  induction v with
  | nil => intro w _; rfl
  | cons d ds ih =>
    intro w hv
    simp only [List.cons_append, List.dropWhile_cons, hv d (List.mem_cons_self d ds)]
    simp only [if_true]
    exact ih w (fun e he => hv e (List.mem_cons_of_mem d he))

/-- Stripping a trailing region that fully satisfies the predicate equals
stripping the bare string. -/
theorem rstripP_append_sat (p : Char → Bool) (s u : Str)
    (h : ∀ c ∈ u, p c = true) : rstripP p (s ++ u) = rstripP p s := by
  rw [rstripP, rstripP, List.reverse_append]
  rw [dropWhile_append_sat p u.reverse s.reverse
    (fun c hc => h c (List.mem_reverse.mp hc))]

/-- A string ending in a character that fails the predicate is unchanged
by `rstripP`. -/
theorem rstripP_snoc_neg (p : Char → Bool) (t : Str) (c : Char)
    (h : p c = false) : rstripP p (t ++ [c]) = t ++ [c] := by
  rw [rstripP, List.reverse_append, List.reverse_singleton, List.singleton_append,
    List.dropWhile_cons, h]
  simp

/-- A string whose last character fails the predicate is unchanged by
`rstripP`. -/
theorem rstripP_last_neg (p : Char → Bool) (s : Str) (hs : s ≠ [])
    (h : p (s.getLast hs) = false) : rstripP p s = s := by
  have hrep := List.dropLast_append_getLast hs
  have := rstripP_snoc_neg p s.dropLast (s.getLast hs) h
  rw [hrep] at this
  exact this

/-- A cons whose head fails the predicate is unchanged by `dropWhile`. -/
theorem dropWhile_cons_neg (p : Char → Bool) (c : Char) (t : Str)
    (h : p c = false) : List.dropWhile p (c :: t) = c :: t := by
  rw [List.dropWhile_cons, h]
  simp

/-- A string with a non-whitespace head and a non-whitespace last
character is unchanged by `pyStrip`. -/
theorem pyStrip_of_clean_ends (c : Char) (t : Str)
    (hc : c.isWhitespace = false)
    (hl : ((c :: t).getLast (by simp)).isWhitespace = false) :
    pyStrip (c :: t) = c :: t := by
  rw [pyStrip, lstripWS_cons c t hc]
  exact rstripP_last_neg _ _ (by simp) hl

/-- Left-stripping only shortens a string. -/
theorem lstripWS_length_le (s : Str) : (lstripWS s).length ≤ s.length :=
  (List.dropWhile_suffix _).length_le

/-- Right-stripping only shortens a string. -/
theorem rstripP_length_le (p : Char → Bool) (s : Str) :
    (rstripP p s).length ≤ s.length := by
  rw [rstripP, List.length_reverse]
  calc (s.reverse.dropWhile p).length ≤ s.reverse.length := (List.dropWhile_suffix _).length_le
    _ = s.length := List.length_reverse s

/-- A string fixed by `pyStrip` is fixed by `lstripWS` alone. -/
theorem lstripWS_of_pyStrip_fixed (s : Str) (h : pyStrip s = s) :
    lstripWS s = s := by
  have hsuf : lstripWS s <:+ s := List.dropWhile_suffix _
  refine hsuf.eq_of_length ?_
  have h1 : (pyStrip s).length ≤ (lstripWS s).length := rstripP_length_le _ _
  have h2 := lstripWS_length_le s
  rw [h] at h1
  omega

/-- A string fixed by `pyStrip` is fixed by trailing-whitespace stripping
alone. -/
theorem rstripWS_of_pyStrip_fixed (s : Str) (h : pyStrip s = s) :
    rstripP Char.isWhitespace s = s := by
  have := h
  rw [pyStrip, lstripWS_of_pyStrip_fixed s h] at this
  exact this

/-- The value after the first colon of a label line whose label holds no
colon. -/
theorem afterFirstColon_append (a r : Str) (h : ':' ∉ a) :
    afterFirstColon (a ++ ':' :: r) = r := by
  induction a with
  | nil => simp [afterFirstColon]
  | cons c cs ih =>
    rw [List.cons_append, afterFirstColon]
    rw [if_neg (by intro hc; exact h (hc ▸ List.mem_cons_self c cs))]
    exact ih (fun hc => h (List.mem_cons_of_mem c hc))

/-- A boolean prefix test against a longer string carrying the pattern in
front. -/
theorem isPrefixOf_append_left (pat a b : Str) (h : pat <+: a) :
    pat.isPrefixOf (a ++ b) = true := by
  rw [List.isPrefixOf_iff_prefix]
  exact h.trans (List.prefix_append a b)

/-- A boolean prefix test fails on mismatched heads. -/
theorem isPrefixOf_cons_ne (a b : Char) (as bs : Str) (h : a ≠ b) :
    (a :: as).isPrefixOf (b :: bs) = false := by
  rw [← Bool.not_eq_true, List.isPrefixOf_iff_prefix, List.cons_prefix_cons]
  intro hc
  exact h hc.1

/-! ## Repository snapshot fetcher (`backend/github_client.py`) -/

/-- Embedding of `extract_owner_repo`: extract the owner and repository
slug from a GitHub URL, or a `ValueError` message. -/
def extract_owner_repo (repo_url : Str) : Except Str (Str × Str) :=
  if containsSub "github.com".toList repo_url = false then
    .error "The provided URL does not appear to be a GitHub repository".toList
  else
    let cleaned := rstripSlash (pyStrip repo_url)
    let parts := pySplit ['/'] ((pySplit "github.com/".toList cleaned).getLastD [])
    match parts with
    | owner :: repo :: _ =>
      .ok (owner,
        if ".git".toList.isSuffixOf repo then repo.take (repo.length - 4) else repo)
    | _ => .error "Please include both the owner and repository name in the URL".toList

/-- A suffix of an appended list is either a suffix of the right part or
carries a non-empty suffix of the left part in front of the right part. -/
theorem suffix_append_cases (t a b : Str) (h : t <:+ a ++ b) :
    t <:+ b ∨ ∃ a', a' <:+ a ∧ a' ≠ [] ∧ t = a' ++ b := by
  induction a with
  | nil =>
    left
    rw [List.nil_append] at h
    exact h
  | cons c a ih =>
    rw [List.cons_append] at h
    rcases List.suffix_cons_iff.mp h with rfl | h'
    · right
      exact ⟨c :: a, List.suffix_refl _, by simp, by simp⟩
    · rcases ih h' with h'' | ⟨a', ha', hne, rfl⟩
      · left
        exact h''
      · right
        exact ⟨a', ha'.trans (List.suffix_cons c a), hne, rfl⟩

/-- Unique decomposition of a list at a distinguished character absent
from both front parts. -/
theorem append_cons_inj (c : Char) :
    ∀ a b u v : Str, c ∉ a → c ∉ b → a ++ c :: u = b ++ c :: v →
      a = b ∧ u = v := by
  intro a
  induction a with
  | nil =>
    intro b u v _ hb heq
    cases b with
    | nil =>
      simp only [List.nil_append, List.cons.injEq] at heq
      exact ⟨rfl, heq.2⟩
    | cons d ds =>
      rw [List.nil_append, List.cons_append] at heq
      injection heq with h1 h2
      exact absurd (h1 ▸ List.mem_cons_self d ds) hb
  | cons d ds ih =>
    intro b u v ha hb heq
    cases b with
    | nil =>
      rw [List.nil_append, List.cons_append] at heq
      injection heq with h1 h2
      exact absurd (h1 ▸ List.mem_cons_self d ds) ha
    | cons e es =>
      simp only [List.cons_append, List.cons.injEq] at heq
      obtain ⟨rfl, heq'⟩ := heq
      obtain ⟨h1, h2⟩ := ih es u v (fun hm => ha (List.mem_cons_of_mem d hm))
        (fun hm => hb (List.mem_cons_of_mem d hm)) heq'
      exact ⟨by rw [h1], h2⟩

/-- A single-character separator does not occur in a string avoiding that
character. -/
theorem containsSub_single_notMem (c : Char) (s : Str) (h : c ∉ s) :
    containsSub [c] s = false := by
  rw [← Bool.not_eq_true, containsSub_iff]
  rintro ⟨t, hsuf, hpre⟩
  exact h (hsuf.subset (hpre.subset (List.mem_singleton_self c)))

/-- Any non-empty suffix of a region avoiding the separator's head fails
the boolean prefix test against the separator. -/
theorem noMatch_head (s0 : Char) (sep' pre rest : Str) (h : s0 ∉ pre) :
    ∀ u, u ≠ [] → u <:+ pre → (s0 :: sep').isPrefixOf (u ++ rest) = false := by
  intro u hu hsuf
  match u, hu with
  | c :: cs, _ =>
    rw [List.cons_append]
    refine isPrefixOf_cons_ne s0 c sep' (cs ++ rest) ?_
    intro hc
    exact h (hc ▸ hsuf.subset (List.mem_cons_self c cs))

/-- The `github.com/` marker does not occur after the first owner/repo
separator of a cleaned URL tail, provided neither segment carries a slash
and the owner does not end in `github.com`. -/
theorem marker_not_in_tail (owner R : Str)
    (h1 : '/' ∉ owner) (h2 : '/' ∉ R)
    (h3 : ¬ ("github.com".toList <:+ owner)) :
    containsSub "github.com/".toList (owner ++ '/' :: R) = false := by
  rw [← Bool.not_eq_true, containsSub_iff]
  rintro ⟨t, hsuf, hpre⟩
  rcases suffix_append_cases t owner ('/' :: R) hsuf with hR | ⟨a', ha', hne, rfl⟩
  · rcases List.suffix_cons_iff.mp hR with rfl | hR'
    · have : 'g' = '/' ∧ "ithub.com/".toList <+: R :=
        List.cons_prefix_cons.mp hpre
      exact absurd this.1 (by decide)
    · have hmem : '/' ∈ "github.com/".toList := by decide
      exact h2 (hR'.subset (hpre.subset hmem))
  · obtain ⟨u, hu⟩ := hpre
    have hmk : ("github.com/".toList : Str) = "github.com".toList ++ ['/'] := by decide
    rw [hmk, List.append_assoc, List.singleton_append] at hu
    have hna : '/' ∉ a' := fun hm => h1 (ha'.subset hm)
    have hnm : '/' ∉ ("github.com".toList : Str) := by decide
    obtain ⟨heq, -⟩ := append_cons_inj '/' "github.com".toList a' u R hnm hna hu
    exact h3 (heq ▸ ha')

/-- The last element of an appended list with a non-empty right part. -/
theorem getLast?_append_right : ∀ A B : Str, B ≠ [] → (A ++ B).getLast? = B.getLast? := by
  intro A
  induction A with
  | nil => intro B _; rfl
  | cons c A ih =>
    intro B hB
    rw [List.cons_append]
    have hne : A ++ B ≠ [] := by
      simp [hB]
    match hAB : A ++ B, hne with
    | d :: t, _ =>
      rw [List.getLast?_cons_cons]
      rw [← hAB]
      exact ih B hB

/-- Stripping fixes any string whose first and last characters are not
whitespace. -/
theorem pyStrip_fixed_of_ends (s : Str)
    (h1 : ∀ c, s.head? = some c → c.isWhitespace = false)
    (h2 : ∀ c, s.getLast? = some c → c.isWhitespace = false) :
    pyStrip s = s := by
  cases s with
  | nil => rfl
  | cons c t =>
    refine pyStrip_of_clean_ends c t (h1 c rfl) ?_
    exact h2 _ (List.getLast?_eq_getLast (c :: t) (by simp))

/-- Right-stripping fixes any string whose last character fails the predicate,
phrased through `getLast?`. -/
theorem rstripP_last?_neg (p : Char → Bool) (s : Str) (c : Char)
    (hc : s.getLast? = some c) (h : p c = false) : rstripP p s = s := by
  have hs : s ≠ [] := by
    intro h'
    subst h'
    simp at hc
  have hgl := List.getLast?_eq_getLast s hs
  rw [hc] at hgl
  injection hgl with hgl'
  exact rstripP_last_neg p s hs (hgl' ▸ h)

/-- Core computation of `extract_owner_repo` on a canonical URL
`scheme ++ "github.com/" ++ owner ++ "/" ++ Rcore ++ slashes`: the parse
succeeds and returns the owner and the (possibly `.git`-stripped) final
segment. -/
theorem extract_owner_repo_canonical (scheme owner Rcore slashsfx : Str)
    (hg : 'g' ∉ scheme)
    (hsw : scheme = [] ∨ ∃ c t, scheme = c :: t ∧ c.isWhitespace = false)
    (h1 : '/' ∉ owner)
    (h3 : ¬ ("github.com".toList <:+ owner))
    (hR : '/' ∉ Rcore)
    (hRlast : ∃ c, Rcore.getLast? = some c ∧ c ≠ '/' ∧ c.isWhitespace = false)
    (hsl : slashsfx = [] ∨ slashsfx = ['/']) :
    extract_owner_repo
      (scheme ++ ("github.com/".toList ++ (owner ++ '/' :: (Rcore ++ slashsfx))))
      = .ok (owner,
          if ".git".toList.isSuffixOf Rcore then Rcore.take (Rcore.length - 4)
          else Rcore) := by
  obtain ⟨e, hlastR, hene, hews⟩ := hRlast
  have hRne : Rcore ≠ [] := by
    intro h
    subst h
    simp at hlastR
  have hcore_last :
      (scheme ++ ("github.com/".toList ++ (owner ++ '/' :: Rcore))).getLast? = some e := by
    rw [getLast?_append_right scheme _ (by simp)]
    rw [getLast?_append_right "github.com/".toList _ (by simp)]
    rw [show (owner ++ '/' :: Rcore : Str) = (owner ++ ['/']) ++ Rcore by simp]
    rw [getLast?_append_right (owner ++ ['/']) Rcore hRne]
    exact hlastR
  have hurl_eq : scheme ++ ("github.com/".toList ++ (owner ++ '/' :: (Rcore ++ slashsfx)))
      = (scheme ++ ("github.com/".toList ++ (owner ++ '/' :: Rcore))) ++ slashsfx := by
    simp [List.append_assoc]
  have hlast_url : ∀ c,
      (scheme ++ ("github.com/".toList ++ (owner ++ '/' :: (Rcore ++ slashsfx)))).getLast?
        = some c → c.isWhitespace = false := by
    intro c hc
    rw [hurl_eq] at hc
    rcases hsl with rfl | rfl
    · rw [List.append_nil, hcore_last] at hc
      injection hc with hc'
      rw [← hc']
      exact hews
    · rw [getLast?_append_right _ ['/'] (by simp)] at hc
      injection hc with hc'
      rw [← hc']
      decide
  have hhead_url : ∀ c,
      (scheme ++ ("github.com/".toList ++ (owner ++ '/' :: (Rcore ++ slashsfx)))).head?
        = some c → c.isWhitespace = false := by
    intro c hc
    rcases hsw with rfl | ⟨d, t, rfl, hd⟩
    · rw [List.nil_append] at hc
      have hg' : (("github.com/".toList ++ (owner ++ '/' :: (Rcore ++ slashsfx)))).head?
          = some 'g' := rfl
      rw [hg'] at hc
      injection hc with hc'
      rw [← hc']
      decide
    · rw [List.cons_append] at hc
      simp only [List.head?_cons, Option.some.injEq] at hc
      rw [← hc]
      exact hd
  have hstrip : pyStrip (scheme ++ ("github.com/".toList ++ (owner ++ '/' :: (Rcore ++ slashsfx))))
      = scheme ++ ("github.com/".toList ++ (owner ++ '/' :: (Rcore ++ slashsfx))) :=
    pyStrip_fixed_of_ends _ hhead_url hlast_url
  have hclean : rstripSlash (scheme ++ ("github.com/".toList ++ (owner ++ '/' :: (Rcore ++ slashsfx))))
      = scheme ++ ("github.com/".toList ++ (owner ++ '/' :: Rcore)) := by
    rw [hurl_eq, rstripSlash]
    rcases hsl with rfl | rfl
    · rw [List.append_nil]
      exact rstripP_last?_neg _ _ e hcore_last (by simp [hene])
    · rw [rstripP_append_sat _ _ ['/'] (by intro c hc; simp at hc; simp [hc])]
      exact rstripP_last?_neg _ _ e hcore_last (by simp [hene])
  have hcontains : containsSub "github.com".toList
      (scheme ++ ("github.com/".toList ++ (owner ++ '/' :: (Rcore ++ slashsfx)))) = true := by
    have h := containsSub_of_append "github.com".toList "github.com/".toList
      ⟨['/'], by decide⟩ scheme (owner ++ '/' :: (Rcore ++ slashsfx))
    rw [List.append_assoc] at h
    exact h
  have hinner1 : pySplit "github.com/".toList
      ("github.com/".toList ++ (owner ++ '/' :: Rcore)) = [[], owner ++ '/' :: Rcore] := by
    rw [pySplit_sep_append _ _ (by decide)]
    rw [pySplit_noOccur _ _ (marker_not_in_tail owner Rcore h1 hR h3)]
  have hsplit1 : pySplit "github.com/".toList
      (scheme ++ ("github.com/".toList ++ (owner ++ '/' :: Rcore)))
      = [scheme, owner ++ '/' :: Rcore] := by
    rw [pySplit_prepend_noMatch "github.com/".toList _ (by decide) scheme ?noM]
    case noM =>
      intro u hu hsuf
      rw [show ("github.com/".toList : Str) = 'g' :: "ithub.com/".toList by decide]
      exact noMatch_head 'g' _ scheme _ hg u hu hsuf
    rw [hinner1]
    simp
  have hinner2 : pySplit ['/'] ('/' :: Rcore) = [[], Rcore] := by
    rw [show ('/' :: Rcore : Str) = ['/'] ++ Rcore by simp]
    rw [pySplit_sep_append _ _ (by decide)]
    rw [pySplit_noOccur _ _ (containsSub_single_notMem '/' Rcore hR)]
  have hsplit2 : pySplit ['/'] (owner ++ '/' :: Rcore) = [owner, Rcore] := by
    rw [pySplit_prepend_noMatch ['/'] ('/' :: Rcore) (by decide) owner ?noM2]
    case noM2 =>
      intro u hu hsuf
      exact noMatch_head '/' [] owner ('/' :: Rcore) h1 u hu hsuf
    rw [hinner2]
    simp
  unfold extract_owner_repo
  rw [hcontains]
  rw [if_neg (by simp)]
  rw [hstrip, hclean]
  dsimp only
  rw [hsplit1]
  have hld : ([scheme, owner ++ '/' :: Rcore] : List Str).getLastD [] = owner ++ '/' :: Rcore := rfl
  rw [hld, hsplit2]

/-- C5: for every owner and repository whose names make a valid GitHub
slug (no slash, no whitespace, the owner not ending in `github.com`, the
repository name non-empty and not ending in `.git`), every URL variant —
with or without a scheme prefix, with or without a trailing `.git`, with
or without a trailing slash — parses to the same `(owner, repo)` pair. -/
theorem c5_url_variants (owner repo scheme : Str) (git slash : Bool)
    (hs : scheme = [] ∨ scheme = "http://".toList ∨ scheme = "https://".toList)
    (h1 : '/' ∉ owner) (h2 : '/' ∉ repo)
    (h3 : ¬ ("github.com".toList <:+ owner))
    (h4 : ¬ (".git".toList <:+ repo))
    (h5 : repo ≠ [])
    (h6 : ∀ c ∈ repo, c.isWhitespace = false) :
    extract_owner_repo
      (scheme ++ "github.com/".toList ++ owner
        ++ '/' :: (repo ++ (if git then ".git".toList else [])
                    ++ (if slash then ['/'] else [])))
      = .ok (owner, repo) := by
  have hg : 'g' ∉ scheme := by
    rcases hs with rfl | rfl | rfl <;> decide
  have hsw : scheme = [] ∨ ∃ c t, scheme = c :: t ∧ c.isWhitespace = false := by
    rcases hs with rfl | rfl | rfl
    · exact Or.inl rfl
    · exact Or.inr ⟨'h', "ttp://".toList, by decide, by decide⟩
    · exact Or.inr ⟨'h', "ttps://".toList, by decide, by decide⟩
  have hlast_plain : ∃ c, repo.getLast? = some c ∧ c ≠ '/' ∧ c.isWhitespace = false :=
    ⟨repo.getLast h5, List.getLast?_eq_getLast repo h5,
      fun hEq => h2 (hEq ▸ List.getLast_mem h5),
      h6 _ (List.getLast_mem h5)⟩
  have hgitR : '/' ∉ (repo ++ ".git".toList : Str) := by
    intro hmem
    rcases List.mem_append.mp hmem with hm | hm
    · exact h2 hm
    · revert hm
      decide
  have hlast_git : ∃ c, (repo ++ ".git".toList : Str).getLast? = some c ∧
      c ≠ '/' ∧ c.isWhitespace = false := by
    refine ⟨'t', ?_, by decide, by decide⟩
    rw [getLast?_append_right repo ".git".toList (by decide)]
    decide
  have hnogit : ¬ (".git".toList.isSuffixOf repo = true) :=
    fun hh => h4 (List.isSuffixOf_iff_suffix.mp hh)
  have hyesgit : ".git".toList.isSuffixOf (repo ++ ".git".toList) = true :=
    List.isSuffixOf_iff_suffix.mpr (List.suffix_append repo _)
  have htake : (repo ++ ".git".toList : Str).take ((repo ++ ".git".toList : Str).length - 4)
      = repo := by
    have hlen4 : (".git".toList : Str).length = 4 := by decide
    have : (repo ++ ".git".toList : Str).length - 4 = repo.length := by
      simp [List.length_append, hlen4]
    rw [this]
    exact List.take_left repo _
  cases git <;> cases slash
  · have h := extract_owner_repo_canonical scheme owner repo [] hg hsw h1 h3 h2
      hlast_plain (Or.inl rfl)
    rw [if_neg hnogit] at h
    simp only [Bool.false_eq_true, if_false, List.append_nil, List.append_assoc] at h ⊢
    exact h
  · have h := extract_owner_repo_canonical scheme owner repo ['/'] hg hsw h1 h3 h2
      hlast_plain (Or.inr rfl)
    rw [if_neg hnogit] at h
    simp only [Bool.false_eq_true, if_false, if_true, List.append_nil, List.append_assoc] at h ⊢
    exact h
  · have h := extract_owner_repo_canonical scheme owner (repo ++ ".git".toList) [] hg hsw h1 h3
      hgitR hlast_git (Or.inl rfl)
    rw [if_pos hyesgit, htake] at h
    simp only [Bool.false_eq_true, if_false, if_true, List.append_nil, List.append_assoc] at h ⊢
    exact h
  · have h := extract_owner_repo_canonical scheme owner (repo ++ ".git".toList) ['/'] hg hsw h1 h3
      hgitR hlast_git (Or.inr rfl)
    rw [if_pos hyesgit, htake] at h
    simp only [if_true, List.append_nil, List.append_assoc] at h ⊢
    exact h

/-- C5 witness: the theorem applied to a concrete owner/repo at the
scheme-plus-`.git` variant, stated on the flat URL literal. -/
theorem c5_witness :
    extract_owner_repo "https://github.com/abez123/gitalyzer.git".toList
      = .ok ("abez123".toList, "gitalyzer".toList) := by
  have h := c5_url_variants "abez123".toList "gitalyzer".toList "https://".toList true false
    (Or.inr (Or.inr rfl)) (by decide) (by decide)
    (fun hsuf => by
      have := List.isSuffixOf_iff_suffix.mpr hsuf
      revert this
      decide)
    (fun hsuf => by
      have := List.isSuffixOf_iff_suffix.mpr hsuf
      revert this
      decide)
    (by decide) (by decide)
  rw [show ("https://github.com/abez123/gitalyzer.git".toList : Str)
      = "https://".toList ++ "github.com/".toList ++ "abez123".toList
        ++ '/' :: ("gitalyzer".toList ++ (if true then ".git".toList else [])
                    ++ (if false then ['/'] else [])) by decide]
  exact h

/-- C9: a URL of the form `github.com/owner/repo/extra/segments` — extra
path segments after the repository — still parses successfully to
`(owner, repo)`: only the first two path segments after the last
occurrence of the domain marker are used (the hypothesis that the marker
does not reoccur in the tail pins down "last occurrence"). -/
theorem c9_extra_segments (owner repo extra : Str)
    (h1 : '/' ∉ owner) (h2 : '/' ∉ repo)
    (h4 : ¬ (".git".toList <:+ repo))
    (hnm : containsSub "github.com/".toList
      (owner ++ '/' :: (repo ++ '/' :: extra)) = false)
    (hex : extra ≠ [])
    (hl : ∀ c, extra.getLast? = some c → c ≠ '/' ∧ c.isWhitespace = false) :
    extract_owner_repo ("github.com/".toList ++ (owner ++ '/' :: (repo ++ '/' :: extra)))
      = .ok (owner, repo) := by
  obtain ⟨e, hle⟩ : ∃ c, extra.getLast? = some c :=
    ⟨extra.getLast hex, List.getLast?_eq_getLast extra hex⟩
  obtain ⟨hene, hews⟩ := hl e hle
  have hlast_url :
      (("github.com/".toList ++ (owner ++ '/' :: (repo ++ '/' :: extra))) : Str).getLast?
        = some e := by
    rw [getLast?_append_right "github.com/".toList _ (by simp)]
    rw [show (owner ++ '/' :: (repo ++ '/' :: extra) : Str)
        = (owner ++ ['/']) ++ (repo ++ '/' :: extra) by simp]
    rw [getLast?_append_right (owner ++ ['/']) _ (by simp)]
    rw [show (repo ++ '/' :: extra : Str) = (repo ++ ['/']) ++ extra by simp]
    rw [getLast?_append_right (repo ++ ['/']) extra hex]
    exact hle
  have hstrip : pyStrip ("github.com/".toList ++ (owner ++ '/' :: (repo ++ '/' :: extra)))
      = "github.com/".toList ++ (owner ++ '/' :: (repo ++ '/' :: extra)) := by
    apply pyStrip_fixed_of_ends
    · intro c hc
      have hg' : (("github.com/".toList ++ (owner ++ '/' :: (repo ++ '/' :: extra)))).head?
          = some 'g' := rfl
      rw [hg'] at hc
      injection hc with hc'
      rw [← hc']
      decide
    · intro c hc
      rw [hlast_url] at hc
      injection hc with hc'
      rw [← hc']
      exact hews
  have hclean : rstripSlash ("github.com/".toList ++ (owner ++ '/' :: (repo ++ '/' :: extra)))
      = "github.com/".toList ++ (owner ++ '/' :: (repo ++ '/' :: extra)) :=
    rstripP_last?_neg _ _ e hlast_url (by simp [hene])
  have hcontains : containsSub "github.com".toList
      ("github.com/".toList ++ (owner ++ '/' :: (repo ++ '/' :: extra))) = true := by
    have h := containsSub_of_append "github.com".toList "github.com/".toList
      ⟨['/'], by decide⟩ [] (owner ++ '/' :: (repo ++ '/' :: extra))
    rw [List.nil_append] at h
    exact h
  have hsplit1 : pySplit "github.com/".toList
      ("github.com/".toList ++ (owner ++ '/' :: (repo ++ '/' :: extra)))
      = [[], owner ++ '/' :: (repo ++ '/' :: extra)] := by
    rw [pySplit_sep_append _ _ (by decide)]
    rw [pySplit_noOccur _ _ hnm]
  have hsplit_extra : pySplit ['/'] ('/' :: extra) = [] :: pySplit ['/'] extra := by
    rw [show ('/' :: extra : Str) = ['/'] ++ extra by simp]
    exact pySplit_sep_append ['/'] extra (by decide)
  have hsplit_mid : pySplit ['/'] (repo ++ '/' :: extra)
      = repo :: pySplit ['/'] extra := by
    rw [pySplit_prepend_noMatch ['/'] ('/' :: extra) (by decide) repo
      (noMatch_head '/' [] repo ('/' :: extra) h2)]
    rw [hsplit_extra]
    simp
  have hsplit2 : pySplit ['/'] (owner ++ '/' :: (repo ++ '/' :: extra))
      = owner :: repo :: pySplit ['/'] extra := by
    rw [pySplit_prepend_noMatch ['/'] ('/' :: (repo ++ '/' :: extra)) (by decide) owner
      (noMatch_head '/' [] owner ('/' :: (repo ++ '/' :: extra)) h1)]
    rw [show ('/' :: (repo ++ '/' :: extra) : Str) = ['/'] ++ (repo ++ '/' :: extra) by simp]
    rw [pySplit_sep_append _ _ (by decide)]
    rw [hsplit_mid]
    simp
  have hnogit : ¬ (".git".toList.isSuffixOf repo = true) :=
    fun hh => h4 (List.isSuffixOf_iff_suffix.mp hh)
  unfold extract_owner_repo
  rw [hcontains]
  rw [if_neg (by simp)]
  rw [hstrip, hclean]
  dsimp only
  rw [hsplit1]
  have hld : (([[], owner ++ '/' :: (repo ++ '/' :: extra)]) : List Str).getLastD []
      = owner ++ '/' :: (repo ++ '/' :: extra) := rfl
  rw [hld, hsplit2]
  dsimp only
  rw [if_neg hnogit]

/-- C9 witness: the theorem applied to a URL with two extra path
segments. -/
theorem c9_witness :
    extract_owner_repo "github.com/abez123/gitalyzer/tree/main".toList
      = .ok ("abez123".toList, "gitalyzer".toList) := by
  have h := c9_extra_segments "abez123".toList "gitalyzer".toList "tree/main".toList
    (by decide) (by decide)
    (fun hsuf => by
      have := List.isSuffixOf_iff_suffix.mpr hsuf
      revert this
      decide)
    (by decide) (by decide) (by decide)
  rw [show ("github.com/abez123/gitalyzer/tree/main".toList : Str)
      = "github.com/".toList ++ ("abez123".toList
          ++ '/' :: ("gitalyzer".toList ++ '/' :: "tree/main".toList)) by decide]
  exact h

/-! ## Request orchestrator context (`backend/main.py`) -/

/-- One entry of `RepositoryInfo.recent_commits`.  The fetcher always
stores both keys, so `item.get('message', '')` reads the message and
`item.get('date', 'unknown date')` reads the stored date value — which may
be `None` and then prints as `None` (the `.get` default is dead because
the key is present). -/
structure CommitEntry where
  message : Str
  date : Option Str
deriving DecidableEq

/-- The repository snapshot record (`RepositoryInfo` in `main.py`, the
validated form of the dict returned by `fetch_repository_snapshot`). -/
structure RepositoryInfo where
  name : Option Str
  full_name : Option Str
  description : Option Str
  html_url : Option Str
  default_branch : Option Str
  license : Option Str
  stars : Nat
  forks : Nat
  open_issues : Nat
  watchers : Nat
  language : Option Str
  topics : List Str
  languages : List (Str × Nat)
  recent_commits : List CommitEntry
  readme_excerpt : Option Str
deriving DecidableEq

/-- The `", ".join(f"{name} ({score})" ...)` languages line. -/
def languagesLine (ls : List (Str × Nat)) : Str :=
  List.intercalate ", ".toList
    (ls.map (fun p => p.1 ++ " (".toList ++ natStr p.2 ++ ")".toList))

/-- The newline-joined recent-commit bullet lines. -/
def commitsLines (cs : List CommitEntry) : Str :=
  List.intercalate ['\n']
    (cs.map (fun item =>
      "  - ".toList ++ pyStrip item.message ++ " (".toList ++ pyShow item.date ++ ")".toList))

/-- Embedding of `_build_context`: the plain-text snapshot rendering that
is both the language-model prompt body and the fallback parser's input. -/
def _build_context (repo : RepositoryInfo) : Str :=
  ("Repository: ".toList ++ pyShow (pyOr repo.full_name repo.name))
  ++ '\n' :: (("Description: ".toList
      ++ orDefault repo.description "No description provided.".toList)
  ++ '\n' :: (("Primary language: ".toList ++ orDefault repo.language "Unknown".toList)
  ++ '\n' :: (("Languages: ".toList
      ++ (if languagesLine repo.languages = [] then "Not reported".toList
          else languagesLine repo.languages))
  ++ '\n' :: (("Stars: ".toList ++ natStr repo.stars ++ ", Forks: ".toList
      ++ natStr repo.forks ++ ", Open issues: ".toList ++ natStr repo.open_issues)
  ++ '\n' :: (("Topics: ".toList
      ++ (if repo.topics = [] then "None".toList
          else List.intercalate ", ".toList repo.topics))
  ++ '\n' :: (("Default branch: ".toList ++ orDefault repo.default_branch "main".toList)
  ++ '\n' :: ("Recent commits:".toList
  ++ '\n' :: ((if commitsLines repo.recent_commits = []
      then "  - No recent commits retrieved.".toList
      else commitsLines repo.recent_commits)
  ++ '\n' :: ("README excerpt:".toList
  ++ '\n' :: (orDefault repo.readme_excerpt "No README available.".toList))))))))))

/-- Applying `List.dropWhile` to a snoc whose final element fails the predicate is
never empty. -/
theorem dropWhile_snoc_ne_nil (p : Char → Bool) (c : Char) (h : p c = false) :
    ∀ u : Str, List.dropWhile p (u ++ [c]) ≠ [] := by
  intro u
  induction u with
  | nil =>
    rw [List.nil_append, List.dropWhile_cons, h]
    simp
  | cons d ds ih =>
    rw [List.cons_append, List.dropWhile_cons]
    by_cases hd : p d = true
    · rw [hd]
      simpa using ih
    · rw [Bool.not_eq_true] at hd
      rw [hd]
      simp

/-- Right-stripping yields a prefix of its input. -/
theorem rstripP_isPrefix (p : Char → Bool) (s : Str) : rstripP p s <+: s := by
  rw [rstripP]
  have h := List.dropWhile_suffix (l := s.reverse) p
  have := List.reverse_prefix.mpr h
  rw [List.reverse_reverse] at this
  exact this

/-- Stripping a string with a non-whitespace head keeps that head. -/
theorem pyStrip_head (c : Char) (t : Str) (hc : c.isWhitespace = false) :
    ∃ t', pyStrip (c :: t) = c :: t' := by
  rw [pyStrip, lstripWS_cons c t hc]
  have hne : rstripP Char.isWhitespace (c :: t) ≠ [] := by
    rw [rstripP]
    intro h
    have h' : List.dropWhile Char.isWhitespace ((c :: t).reverse) = [] := by
      cases hdw : List.dropWhile Char.isWhitespace ((c :: t).reverse) with
      | nil => rfl
      | cons a l =>
        rw [hdw] at h
        simp at h
    rw [List.reverse_cons] at h'
    exact dropWhile_snoc_ne_nil Char.isWhitespace c hc t.reverse h'
  have hpre : rstripP Char.isWhitespace (c :: t) <+: c :: t := rstripP_isPrefix _ _
  match hr : rstripP Char.isWhitespace (c :: t), hne with
  | r0 :: r', _ =>
    rw [hr] at hpre
    obtain ⟨rfl, -⟩ := List.cons_prefix_cons.mp hpre
    exact ⟨r', rfl⟩

/-- Stripping drops a leading whitespace character. -/
theorem pyStrip_cons_ws (c : Char) (s : Str) (hc : c.isWhitespace = true) :
    pyStrip (c :: s) = pyStrip s := by
  rw [pyStrip, pyStrip, lstripWS, List.dropWhile_cons, hc]
  simp [lstripWS]

/-- The last character of a non-empty string fixed by `rstripP` fails the
predicate. -/
theorem rstripP_fixed_last (p : Char → Bool) (s : Str) (hs : s ≠ [])
    (h : rstripP p s = s) : p (s.getLast hs) = false := by
  by_contra hp
  rw [Bool.not_eq_false] at hp
  have hrep := List.dropLast_append_getLast hs
  have h2 : rstripP p s = rstripP p s.dropLast := by
    conv_lhs => rw [← hrep]
    exact rstripP_append_sat p s.dropLast [s.getLast hs]
      (by intro c hc; simp at hc; rw [hc]; exact hp)
  have hlen : (rstripP p s.dropLast).length ≤ s.dropLast.length := rstripP_length_le _ _
  have hlt : s.dropLast.length < s.length := by
    conv_rhs => rw [← hrep]
    simp
  rw [← h2, h] at hlen
  omega

/-- Splitting on a single character peels off a leading segment avoiding
that character. -/
theorem pySplit_char_cons (c : Char) (a r : Str) (h : c ∉ a) :
    pySplit [c] (a ++ c :: r) = a :: pySplit [c] r := by
  rw [pySplit_prepend_noMatch [c] (c :: r) (by simp) a
    (noMatch_head c [] a (c :: r) h)]
  rw [show (c :: r : Str) = [c] ++ r by simp]
  rw [pySplit_sep_append _ _ (by simp)]
  simp

/-- The fallback's description extraction on a built context: whenever the
rendered description value (the snapshot description or the placeholder)
is non-empty, strip-fixed and newline-free, and the repository/name line
is newline-free, the fallback's `project_summary` is exactly that value. -/
theorem fallback_context_description (repo : RepositoryInfo)
    (hX : '\n' ∉ pyShow (pyOr repo.full_name repo.name))
    (D : Str) (hDdef : orDefault repo.description "No description provided.".toList = D)
    (hDne : D ≠ []) (hDfix : pyStrip D = D) (hDnl : '\n' ∉ D) :
    (generate_rule_based_summary (_build_context repo)).project_summary = D := by
  have hl1 : '\n' ∉ ("Repository: ".toList ++ pyShow (pyOr repo.full_name repo.name) : Str) := by
    intro hm
    rcases List.mem_append.mp hm with hm | hm
    · revert hm
      decide
    · exact hX hm
  have hl2 : '\n' ∉ ("Description: ".toList ++ D : Str) := by
    intro hm
    rcases List.mem_append.mp hm with hm | hm
    · revert hm
      decide
    · exact hDnl hm
  have hDlast : Char.isWhitespace (D.getLast hDne) = false :=
    rstripP_fixed_last Char.isWhitespace D hDne (rstripWS_of_pyStrip_fixed D hDfix)
  have hstrip2 : pyStrip ("Description: ".toList ++ D) = "Description: ".toList ++ D := by
    apply pyStrip_fixed_of_ends
    · intro c hc
      have hh : (("Description: ".toList ++ D) : Str).head? = some 'D' := rfl
      rw [hh] at hc
      injection hc with hc'
      rw [← hc']
      decide
    · intro c hc
      rw [getLast?_append_right "Description: ".toList D hDne,
        List.getLast?_eq_getLast D hDne] at hc
      injection hc with hc'
      rw [← hc']
      exact hDlast
  obtain ⟨t', ht'⟩ : ∃ t', pyStrip ("Repository: ".toList
      ++ pyShow (pyOr repo.full_name repo.name)) = 'R' :: t' := by
    rw [show ("Repository: ".toList ++ pyShow (pyOr repo.full_name repo.name) : Str)
        = 'R' :: ("epository: ".toList ++ pyShow (pyOr repo.full_name repo.name)) from rfl]
    exact pyStrip_head 'R' _ (by decide)
  have hfind : firstLabeled (cleanedLines (_build_context repo)) "Description:".toList
      = some ("Description: ".toList ++ D) := by
    rw [cleanedLines, _build_context, hDdef]
    rw [pySplit_char_cons '\n' _ _ hl1]
    rw [pySplit_char_cons '\n' _ _ hl2]
    simp only [List.map_cons, List.filter_cons]
    rw [ht', hstrip2]
    rw [if_pos (by simp), if_pos (by
      rw [show ("Description: ".toList ++ D : Str)
          = 'D' :: ("escription: ".toList ++ D) from rfl]
      simp)]
    rw [firstLabeled]
    rw [List.find?_cons_of_neg _ (by
      rw [show ("Description:".toList : Str) = 'D' :: "escription:".toList from rfl]
      rw [isPrefixOf_cons_ne 'D' 'R' _ _ (by decide)]
      simp)]
    rw [List.find?_cons_of_pos _
      (isPrefixOf_append_left "Description:".toList "Description: ".toList D
        ⟨[' '], by decide⟩)]
  have hval : labelValue (_build_context repo) "Description:".toList = D := by
    rw [labelValue, hfind]
    dsimp only
    rw [show ("Description: ".toList ++ D : Str)
        = "Description".toList ++ ':' :: (' ' :: D) by
      rw [show ("Description: ".toList : Str) = "Description".toList ++ ':' :: [' '] by decide]
      simp]
    rw [afterFirstColon_append "Description".toList (' ' :: D) (by decide)]
    rw [pyStrip_cons_ws ' ' D (by decide)]
    exact hDfix
  rw [generate_rule_based_summary]
  dsimp only
  rw [hval]
  rw [if_neg hDne]

/-- A snapshot whose description is a single space: truthy in Python, so
the placeholder is not used, yet blank after stripping. -/
def c8Repo : RepositoryInfo :=
  { name := some "demo".toList, full_name := some "user/demo".toList,
    description := some [' '], html_url := none, default_branch := none,
    license := none, stars := 0, forks := 0, open_issues := 0, watchers := 0,
    language := none, topics := [], languages := [], recent_commits := [],
    readme_excerpt := none }

/-- C8 counterexample: on a snapshot whose description is the single
space `" "`, the built context places that (non-empty but blank) value
after `Description:`, and the fallback produces its missing-description
headline — `project_summary` is neither the snapshot description nor the
placeholder, contradicting the claim. -/
theorem c8_counterexample :
    c8Repo.description = some [' ']
    ∧ (generate_rule_based_summary (_build_context c8Repo)).project_summary
        = "This repository does not include a description on GitHub.".toList := by
  constructor
  · rfl
  · set_option maxRecDepth 8000 in decide

/-- C8 (amended): provided the snapshot's repository-name fields are
newline-free, the fallback summary of the built context is the placeholder
`No description provided.` when the description is absent or empty, and is
the description itself when the description is non-empty, newline-free and
fixed by stripping.  (A whitespace-only or padded description escapes this:
it is truthy when the context is built but blank after the fallback's
strip, see the counterexample.) -/
theorem c8_amended (repo : RepositoryInfo)
    (hfn : ∀ s, repo.full_name = some s → '\n' ∉ s)
    (hn : ∀ s, repo.name = some s → '\n' ∉ s) :
    ((repo.description = none ∨ repo.description = some []) →
      (generate_rule_based_summary (_build_context repo)).project_summary
        = "No description provided.".toList)
    ∧ (∀ d, repo.description = some d → d ≠ [] → pyStrip d = d → '\n' ∉ d →
      (generate_rule_based_summary (_build_context repo)).project_summary = d) := by
  have hX : '\n' ∉ pyShow (pyOr repo.full_name repo.name) := by
    cases hf : repo.full_name with
    | some s =>
      by_cases hse : s = []
      · cases hname : repo.name with
        | some sn =>
          simp only [pyOr, pyShow, if_pos hse]
          exact hn sn hname
        | none =>
          simp only [pyOr, pyShow, if_pos hse]
          decide
      · simp only [pyOr, pyShow, if_neg hse]
        exact hfn s hf
    | none =>
      cases hname : repo.name with
      | some sn =>
        simp only [pyOr, pyShow]
        exact hn sn hname
      | none =>
        simp only [pyOr, pyShow]
        decide
  constructor
  · intro hdesc
    refine fallback_context_description repo hX "No description provided.".toList ?_
      (by decide) (by decide) (by decide)
    rcases hdesc with h | h <;> simp [orDefault, h]
  · intro d hd hdne hdfix hdnl
    refine fallback_context_description repo hX d ?_ hdne hdfix hdnl
    simp [orDefault, hd, hdne]

/-- A snapshot with a well-formed description, for the C8 witness. -/
def c8WitnessRepo : RepositoryInfo :=
  { c8Repo with description := some "A small analysis tool.".toList }

/-- C8 witness: the amended theorem evaluated on a snapshot with a clean
description. -/
theorem c8_witness :
    (generate_rule_based_summary (_build_context c8WitnessRepo)).project_summary
      = "A small analysis tool.".toList :=
  (c8_amended c8WitnessRepo
      (fun s hs => by
        injection hs with hs'
        rw [← hs']
        decide)
      (fun s hs => by
        injection hs with hs'
        rw [← hs']
        decide)).2
    "A small analysis tool.".toList rfl (by decide) (by decide) (by decide)

/-! ## Narrative schema validation (`RepositoryAnalysis` in `backend/main.py`)

The language model's reply is untrusted JSON; `model_validate` checks it
against the `RepositoryAnalysis` pydantic model.  Pydantic v2 default
behaviour is embedded: scalar string fields are required and must be
strings, list fields default to the empty list when absent and are
rejected when present with a non-list value, and unknown extra fields are
ignored. -/

/-- A JSON-like value, the shape of a parsed language-model reply. -/
inductive JVal where
  | str (s : Str)
  | num (n : Int)
  | jbool (b : Bool)
  | null
  | arr (xs : List JVal)
  | obj (fields : List (Str × JVal))

/-- Dictionary lookup on a parsed JSON object (first occurrence wins). -/
def jGet (fields : List (Str × JVal)) (k : Str) : Option JVal :=
  (fields.find? (fun p => p.1 == k)).map (fun p => p.2)

/-- A string-typed value, or a validation error. -/
def getStr : JVal → Except Str Str
  | .str s => .ok s
  | _ => .error "Input should be a valid string".toList

/-- A required string field of the model. -/
def requireStr (fields : List (Str × JVal)) (k : Str) : Except Str Str :=
  match jGet fields k with
  | some v => getStr v
  | none => .error ("Field required: ".toList ++ k)

/-- Every element of a JSON array must be a string. -/
def strItems : List JVal → Except Str (List Str)
  | [] => .ok []
  | v :: vs =>
    match getStr v with
    | .ok s =>
      match strItems vs with
      | .ok ss => .ok (s :: ss)
      | .error e => .error e
    | .error e => .error e

/-- A `list[str]` field with `default_factory=list`: absent means `[]`,
present requires an array of strings. -/
def optStrList (fields : List (Str × JVal)) (k : Str) : Except Str (List Str) :=
  match jGet fields k with
  | none => .ok []
  | some (.arr xs) => strItems xs
  | some _ => .error ("Input should be a valid list: ".toList ++ k)

/-- One glossary item: an object with required string `term` and
`definition`. -/
def getGlossaryItem : JVal → Except Str GlossaryItem
  | .obj fs =>
    match requireStr fs "term".toList with
    | .ok t =>
      match requireStr fs "definition".toList with
      | .ok d => .ok ⟨t, d⟩
      | .error e => .error e
    | .error e => .error e
  | _ => .error "Input should be a valid dictionary".toList

/-- Every element of the glossary array must validate as an item. -/
def glossaryItems : List JVal → Except Str (List GlossaryItem)
  | [] => .ok []
  | v :: vs =>
    match getGlossaryItem v with
    | .ok g =>
      match glossaryItems vs with
      | .ok gs => .ok (g :: gs)
      | .error e => .error e
    | .error e => .error e

/-- The `list[GlossaryItem]` field with `default_factory=list`. -/
def optGlossary (fields : List (Str × JVal)) (k : Str) : Except Str (List GlossaryItem) :=
  match jGet fields k with
  | none => .ok []
  | some (.arr xs) => glossaryItems xs
  | some _ => .error ("Input should be a valid list: ".toList ++ k)

/-- Embedding of `RepositoryAnalysis.model_validate` on a parsed JSON
value. -/
def validateNarrative : JVal → Except Str Narrative
  | .obj fs => do
    let ps ← requireStr fs "project_summary".toList
    let hh ← requireStr fs "how_it_helps_people".toList
    let mf ← optStrList fs "main_features".toList
    let hw ← optStrList fs "how_it_works".toList
    let ts ← optStrList fs "tech_stack".toList
    let gs ← optStrList fs "getting_started".toList
    let ns ← optStrList fs "next_steps".toList
    let gl ← optGlossary fs "glossary".toList
    return ⟨ps, hh, mf, hw, ts, gs, ns, gl⟩
  | _ => .error "Input should be a valid dictionary".toList

/-- The JSON shape of the dict built by `generate_rule_based_summary`
(and of `model_dump` of a narrative): exactly the declared keys. -/
def narrativeToJVal (n : Narrative) : JVal :=
  .obj [("project_summary".toList, .str n.project_summary),
        ("how_it_helps_people".toList, .str n.how_it_helps_people),
        ("main_features".toList, .arr (n.main_features.map JVal.str)),
        ("how_it_works".toList, .arr (n.how_it_works.map JVal.str)),
        ("tech_stack".toList, .arr (n.tech_stack.map JVal.str)),
        ("getting_started".toList, .arr (n.getting_started.map JVal.str)),
        ("next_steps".toList, .arr (n.next_steps.map JVal.str)),
        ("glossary".toList, .arr (n.glossary.map (fun g =>
          JVal.obj [("term".toList, .str g.term),
                    ("definition".toList, .str g.definition)])))]

/-- String arrays of string values validate to the underlying strings. -/
theorem strItems_map (l : List Str) : strItems (l.map JVal.str) = .ok l := by
  induction l with
  | nil => rfl
  | cons s ss ih =>
    rw [List.map_cons, strItems, ih]
    rfl

/-- Glossary arrays of well-formed items validate to the items. -/
theorem glossaryItems_map (g : List GlossaryItem) :
    glossaryItems (g.map (fun e =>
      JVal.obj [("term".toList, .str e.term), ("definition".toList, .str e.definition)]))
      = .ok g := by
  induction g with
  | nil => rfl
  | cons e es ih =>
    rw [List.map_cons, glossaryItems, ih]
    rfl

/-- A narrative dumped to its JSON dict always re-validates to itself; in
particular the fallback's dict never fails schema validation. -/
theorem validateNarrative_roundtrip (n : Narrative) :
    validateNarrative (narrativeToJVal n) = .ok n := by
  show (strItems (n.main_features.map JVal.str) >>= fun mf =>
        strItems (n.how_it_works.map JVal.str) >>= fun hw =>
        strItems (n.tech_stack.map JVal.str) >>= fun ts =>
        strItems (n.getting_started.map JVal.str) >>= fun gs =>
        strItems (n.next_steps.map JVal.str) >>= fun ns =>
        glossaryItems (n.glossary.map (fun g =>
          JVal.obj [("term".toList, .str g.term),
                    ("definition".toList, .str g.definition)])) >>= fun gl =>
        Except.ok ⟨n.project_summary, n.how_it_helps_people, mf, hw, ts, gs, ns, gl⟩)
      = Except.ok n
  rw [strItems_map, strItems_map, strItems_map, strItems_map, strItems_map,
    glossaryItems_map]
  rfl

/-- Unwinding of a bind over `Except` that lands on a success. -/
theorem except_bind_ok {α β : Type} (x : Except Str α) (f : α → Except Str β) (b : β) :
    (x >>= f) = .ok b ↔ ∃ a, x = .ok a ∧ f a = .ok b := by
  cases x with
  | ok a => simp [Bind.bind, Except.bind]
  | error e => simp [Bind.bind, Except.bind]

/-- Appending an unrelated key does not change a lookup. -/
theorem jGet_append_single (fs : List (Str × JVal)) (k : Str) (v : JVal) (key : Str)
    (hne : (k == key) = false) : jGet (fs ++ [(k, v)]) key = jGet fs key := by
  induction fs with
  | nil =>
    rw [List.nil_append, jGet, jGet]
    simp [List.find?, hne]
  | cons f fs ih =>
    rw [List.cons_append, jGet, jGet, List.find?, List.find?]
    cases hp : (f.1 == key) with
    | true => rfl
    | false =>
      rw [jGet, jGet] at ih
      exact ih

/-- The declared field names of the narrative model. -/
def narrativeKeys : List Str :=
  ["project_summary".toList, "how_it_helps_people".toList, "main_features".toList,
   "how_it_works".toList, "tech_stack".toList, "getting_started".toList,
   "next_steps".toList, "glossary".toList]

/-- An object carrying a field outside the declared set, which pydantic
accepts (ignoring the extra field) rather than rejects. -/
def c7ExtraObj : JVal :=
  .obj [("project_summary".toList, .str "a".toList),
        ("how_it_helps_people".toList, .str "b".toList),
        ("bogus".toList, .num 3)]

/-- C7 counterexample: validation accepts an object carrying the unknown
field `bogus`, contradicting the claim that no object with fields outside
the declared set is accepted. -/
theorem c7_counterexample :
    validateNarrative c7ExtraObj
      = .ok ⟨"a".toList, "b".toList, [], [], [], [], [], []⟩ := rfl

/-- C7 (amended): validation rejects an object omitting a required scalar
field and rejects a non-list value for any list field, but an object
carrying extra fields outside the declared set is accepted with the extra
fields ignored (pydantic default), not rejected. -/
theorem c7_amended (fs : List (Str × JVal)) :
    ((jGet fs "project_summary".toList = none
        ∨ jGet fs "how_it_helps_people".toList = none) →
      ∀ n, validateNarrative (.obj fs) ≠ .ok n)
    ∧ (∀ k v, k ∈ narrativeKeys.drop 2 → jGet fs k = some v →
        (∀ xs, v ≠ .arr xs) →
        ∀ n, validateNarrative (.obj fs) ≠ .ok n)
    ∧ (∀ k v n, (∀ key ∈ narrativeKeys, (k == key) = false) →
        validateNarrative (.obj fs) = .ok n →
        validateNarrative (.obj (fs ++ [(k, v)])) = .ok n) := by
  refine ⟨?miss, ?mislist, ?extra⟩
  case miss =>
    rintro hmiss n hok
    rw [validateNarrative] at hok
    obtain ⟨ps, hps, hok⟩ := (except_bind_ok _ _ _).mp hok
    obtain ⟨hh, hhh, hok⟩ := (except_bind_ok _ _ _).mp hok
    rcases hmiss with hm | hm
    · rw [requireStr, hm] at hps
      exact absurd hps (by simp)
    · rw [requireStr, hm] at hhh
      exact absurd hhh (by simp)
  case mislist =>
    rintro k v hk hv hnarr n hok
    rw [validateNarrative] at hok
    obtain ⟨ps, hps, hok⟩ := (except_bind_ok _ _ _).mp hok
    obtain ⟨hh, hhh, hok⟩ := (except_bind_ok _ _ _).mp hok
    obtain ⟨mf, hmf, hok⟩ := (except_bind_ok _ _ _).mp hok
    obtain ⟨hw, hhw, hok⟩ := (except_bind_ok _ _ _).mp hok
    obtain ⟨ts, hts, hok⟩ := (except_bind_ok _ _ _).mp hok
    obtain ⟨gs, hgs, hok⟩ := (except_bind_ok _ _ _).mp hok
    obtain ⟨ns, hns, hok⟩ := (except_bind_ok _ _ _).mp hok
    obtain ⟨gl, hgl, hok⟩ := (except_bind_ok _ _ _).mp hok
    have hbad : ∀ r : List Str, optStrList fs k ≠ .ok r := by
      intro r hr
      rw [optStrList, hv] at hr
      match v, hnarr with
      | .str s, _ => exact absurd hr (by simp)
      | .num m, _ => exact absurd hr (by simp)
      | .jbool b, _ => exact absurd hr (by simp)
      | .null, _ => exact absurd hr (by simp)
      | .obj o, _ => exact absurd hr (by simp)
      | .arr xs, hnarr => exact absurd rfl (hnarr xs)
    have hbadg : ∀ r : List GlossaryItem, optGlossary fs k ≠ .ok r := by
      intro r hr
      rw [optGlossary, hv] at hr
      match v, hnarr with
      | .str s, _ => exact absurd hr (by simp)
      | .num m, _ => exact absurd hr (by simp)
      | .jbool b, _ => exact absurd hr (by simp)
      | .null, _ => exact absurd hr (by simp)
      | .obj o, _ => exact absurd hr (by simp)
      | .arr xs, hnarr => exact absurd rfl (hnarr xs)
    simp only [narrativeKeys, List.drop, List.mem_cons, List.not_mem_nil, or_false] at hk
    rcases hk with rfl | rfl | rfl | rfl | rfl | rfl
    · exact hbad mf hmf
    · exact hbad hw hhw
    · exact hbad ts hts
    · exact hbad gs hgs
    · exact hbad ns hns
    · exact hbadg gl hgl
  case extra =>
    rintro k v n hne hok
    have hr : ∀ key, key ∈ narrativeKeys →
        (requireStr (fs ++ [(k, v)]) key = requireStr fs key
          ∧ optStrList (fs ++ [(k, v)]) key = optStrList fs key
          ∧ optGlossary (fs ++ [(k, v)]) key = optGlossary fs key) := by
      intro key hkey
      have hj := jGet_append_single fs k v key (hne key hkey)
      exact ⟨by rw [requireStr, requireStr, hj],
             by rw [optStrList, optStrList, hj],
             by rw [optGlossary, optGlossary, hj]⟩
    rw [validateNarrative] at hok ⊢
    rw [(hr _ (by simp [narrativeKeys])).1,
        (hr "how_it_helps_people".toList (by simp [narrativeKeys])).1,
        (hr "main_features".toList (by simp [narrativeKeys])).2.1,
        (hr "how_it_works".toList (by simp [narrativeKeys])).2.1,
        (hr "tech_stack".toList (by simp [narrativeKeys])).2.1,
        (hr "getting_started".toList (by simp [narrativeKeys])).2.1,
        (hr "next_steps".toList (by simp [narrativeKeys])).2.1,
        (hr "glossary".toList (by simp [narrativeKeys])).2.2]
    exact hok

/-- C7 witness: the amended theorem applied to a concrete object —
dropping `project_summary` is rejected, a string-valued `main_features`
is rejected, and a well-formed object keeps validating after an unknown
field is appended. -/
theorem c7_witness :
    (∀ n, validateNarrative (.obj [("how_it_helps_people".toList, .str "b".toList)]) ≠ .ok n)
    ∧ validateNarrative
        (.obj [("project_summary".toList, .str "a".toList),
               ("how_it_helps_people".toList, .str "b".toList),
               ("bogus".toList, .num 3)])
        = .ok ⟨"a".toList, "b".toList, [], [], [], [], [], []⟩ := by
  constructor
  · exact (c7_amended [("how_it_helps_people".toList, .str "b".toList)]).1 (Or.inl rfl)
  · exact (c7_amended [("project_summary".toList, .str "a".toList),
      ("how_it_helps_people".toList, .str "b".toList)]).2.2
      "bogus".toList (.num 3) ⟨"a".toList, "b".toList, [], [], [], [], [], []⟩
      (by decide) rfl

/-! ## Orchestrator narrative phase (`analyze_repository`, `backend/main.py`)

After the snapshot is fetched and the context built, the handler runs the
AI-or-fallback phase and validates the resulting dict.  The opaque AI
interaction (`call_ai_agent`: the network call plus `json.loads` of the
reply) is modelled by its outcome: either it throws (network failure or
parse failure of the reply text) or it returns parsed JSON data with the
raw reply text. -/

/-- Outcome of the `call_ai_agent` invocation. -/
inductive AiOutcome where
  | throws (msg : Str) : AiOutcome
  | returns (data : JVal) (raw : Str) : AiOutcome

/-- The success payload of `/api/analyze` past the snapshot (the
`analysis`, `used_ai` and `raw_response` response fields). -/
structure AnalyzeSuccess where
  analysis : Narrative
  used_ai : Bool
  raw_response : Option Str
deriving DecidableEq

/-- Embedding of `analyze_repository` from the point where the context is
built (main.py lines 128-158): the AI branch with internal fallback on any
exception, followed by `RepositoryAnalysis.model_validate`, which raises
HTTP 500 on failure. -/
def analyzeNarrativePhase (context : Str) (api_key : Option Str) (ai : AiOutcome) :
    Except (Nat × Str) AnalyzeSuccess :=
  if truthy api_key then
    match ai with
    | .returns data raw =>
      match validateNarrative data with
      | .ok n => .ok ⟨n, true, some raw⟩
      | .error e => .error (500, "Failed to parse analysis: ".toList ++ e)
    | .throws msg =>
      match validateNarrative (narrativeToJVal (generate_rule_based_summary context)) with
      | .ok n => .ok ⟨n, false, some ("AI call failed: ".toList ++ msg)⟩
      | .error e => .error (500, "Failed to parse analysis: ".toList ++ e)
  else
    match validateNarrative (narrativeToJVal (generate_rule_based_summary context)) with
    | .ok n => .ok ⟨n, false, none⟩
    | .error e => .error (500, "Failed to parse analysis: ".toList ++ e)

/-- C2 counterexample: with an api_key present, a language-model reply
that parses as JSON but fails narrative schema validation (here the empty
object) is answered with HTTP 500, not with a 200 fallback — contradicting
the claim that schema-validation failure also degrades to the fallback. -/
theorem c2_counterexample :
    analyzeNarrativePhase "ctx".toList (some "key".toList)
      (.returns (JVal.obj []) "{}".toList)
      = .error (500, "Failed to parse analysis: Field required: project_summary".toList) :=
  rfl

/-- C2 (amended): with a truthy api_key, an AI call that throws (network
failure or JSON parse failure of the reply) degrades to the fallback
narrative and yields a success with `used_ai = false` and a diagnostic
`raw_response`; but a reply that parses and then fails narrative schema
validation yields the 500 error. -/
theorem c2_amended (context key msg raw e : Str) (data : JVal) (hk : key ≠ []) :
    analyzeNarrativePhase context (some key) (.throws msg)
      = .ok ⟨generate_rule_based_summary context, false,
             some ("AI call failed: ".toList ++ msg)⟩
    ∧ (validateNarrative data = .error e →
       analyzeNarrativePhase context (some key) (.returns data raw)
         = .error (500, "Failed to parse analysis: ".toList ++ e)) := by
  have hkt : truthy (some key) = true := by
    rw [truthy]
    simp [hk]
  constructor
  · rw [analyzeNarrativePhase, if_pos hkt]
    rw [validateNarrative_roundtrip]
  · intro hval
    rw [analyzeNarrativePhase, if_pos hkt]
    rw [hval]

/-- C2 witness: the amended theorem at a concrete context, key and
failure message, plus the concrete schema-failure branch. -/
theorem c2_witness :
    analyzeNarrativePhase "Description: Hi.".toList (some "sk-key".toList)
        (.throws "boom".toList)
      = .ok ⟨generate_rule_based_summary "Description: Hi.".toList, false,
             some "AI call failed: boom".toList⟩
    ∧ analyzeNarrativePhase "Description: Hi.".toList (some "sk-key".toList)
        (.returns JVal.null "null".toList)
      = .error (500, "Failed to parse analysis: Input should be a valid dictionary".toList) := by
  have h := c2_amended "Description: Hi.".toList "sk-key".toList "boom".toList
    "null".toList "Input should be a valid dictionary".toList JVal.null (by decide)
  constructor
  · rw [show ("AI call failed: boom".toList : Str)
        = "AI call failed: ".toList ++ "boom".toList by decide]
    exact h.1
  · rw [show ("Failed to parse analysis: Input should be a valid dictionary".toList : Str)
        = "Failed to parse analysis: ".toList
          ++ "Input should be a valid dictionary".toList by decide]
    exact h.2 rfl

/-! ## Snapshot fetching (`fetch_repository_snapshot`, `backend/github_client.py`)

The four upstream HTTP responses are the inputs of the embedding; each
carries its status code, raw text, and parsed JSON body (typed with the
fields the source reads).  Base64 and best-effort UTF-8 decoding of the
README are implemented below; no claim depends on their fine structure,
they stand in for `base64.b64decode` and `bytes.decode("utf-8",
errors="ignore")`. -/

/-- An upstream HTTP response with parsed body. -/
structure HttpResp (α : Type) where
  status_code : Nat
  text : Str
  body : α

/-- The `license` sub-object of the repository metadata. -/
structure LicenseInfo where
  name : Option Str := none

/-- The repository metadata payload, with the fields the source reads via
`.get` (absent fields fall back to the source's defaults). -/
structure RepoMeta where
  name : Option Str := none
  full_name : Option Str := none
  description : Option Str := none
  html_url : Option Str := none
  default_branch : Option Str := none
  license : Option LicenseInfo := none
  stargazers_count : Option Nat := none
  forks_count : Option Nat := none
  open_issues_count : Option Nat := none
  subscribers_count : Option Nat := none
  language : Option Str := none
  topics : Option (List Str) := none

/-- The README payload: encoding marker and base64 content. -/
structure ReadmePayload where
  encoding : Option Str := none
  content : Option Str := none

/-- The `commit.author` sub-object of a commits item. -/
structure CommitAuthor where
  date : Option Str := none

/-- The `commit` sub-object of a commits item. -/
structure CommitObj where
  message : Option Str := none
  author : Option CommitAuthor := none

/-- One item of the commits listing. -/
structure CommitsItem where
  commit : Option CommitObj := none

/-- Value of one base64 alphabet character. -/
def b64Val (c : Char) : Option Nat :=
  if 'A' ≤ c ∧ c ≤ 'Z' then some (c.toNat - 65)
  else if 'a' ≤ c ∧ c ≤ 'z' then some (c.toNat - 97 + 26)
  else if '0' ≤ c ∧ c ≤ '9' then some (c.toNat - 48 + 52)
  else if c = '+' then some 62
  else if c = '/' then some 63
  else none

/-- Regroup 6-bit values into bytes (trailing partial groups best-effort,
as the padding of a valid payload dictates). -/
def b64Bytes : List Nat → List Nat
  | a :: b :: c :: d :: rest =>
    (a * 4 + b / 16) :: ((b % 16) * 16 + c / 4) :: ((c % 4) * 64 + d) :: b64Bytes rest
  | [a, b] => [a * 4 + b / 16]
  | [a, b, c] => [a * 4 + b / 16, (b % 16) * 16 + c / 4]
  | _ => []

/-- Whether a byte is a UTF-8 continuation byte. -/
def isCont (b : Nat) : Bool := 128 ≤ b ∧ b < 192

/-- Best-effort UTF-8 decoding: invalid bytes are skipped, mirroring
`errors="ignore"`. -/
def utf8Decode : List Nat → Str
  | [] => []
  | b :: rest =>
    if b < 128 then Char.ofNat b :: utf8Decode rest
    else if 194 ≤ b ∧ b ≤ 223 then
      match hr : rest with
      | c :: r =>
        if isCont c then Char.ofNat ((b - 192) * 64 + (c - 128)) :: utf8Decode r
        else utf8Decode rest
      | [] => []
    else if 224 ≤ b ∧ b ≤ 239 then
      match hr : rest with
      | c :: d :: r =>
        if isCont c ∧ isCont d then
          Char.ofNat ((b - 224) * 4096 + (c - 128) * 64 + (d - 128)) :: utf8Decode r
        else utf8Decode rest
      | _ => utf8Decode rest
    else if 240 ≤ b ∧ b ≤ 244 then
      match hr : rest with
      | c :: d :: e :: r =>
        if isCont c ∧ isCont d ∧ isCont e then
          Char.ofNat ((b - 240) * 262144 + (c - 128) * 4096 + (d - 128) * 64 + (e - 128))
            :: utf8Decode r
        else utf8Decode rest
      | _ => utf8Decode rest
    else utf8Decode rest
termination_by l => l.length
decreasing_by all_goals ((try subst hr); simp only [List.length_cons]; omega)

/-- Decoding of the base64 README content to text. -/
def decodeBase64Utf8 (s : Str) : Str :=
  utf8Decode (b64Bytes (s.filterMap b64Val))

/-- Embedding of `fetch_repository_snapshot` as a function of the four
upstream responses: the metadata call is load-bearing, the other three are
best-effort. -/
def fetch_repository_snapshot (repo_resp : HttpResp RepoMeta)
    (languages_resp : HttpResp (List (Str × Nat)))
    (readme_resp : HttpResp ReadmePayload)
    (commits_resp : HttpResp (List CommitsItem)) : Except Str RepositoryInfo :=
  if repo_resp.status_code ≠ 200 then
    .error ("Unable to retrieve repository: ".toList
      ++ natStr repo_resp.status_code ++ ' ' :: repo_resp.text)
  else
    let repo_data := repo_resp.body
    let languages_data :=
      if languages_resp.status_code = 200 then languages_resp.body else []
    let readme_text :=
      if readme_resp.status_code = 200 then
        let payload := readme_resp.body
        let encoding := payload.encoding.getD "base64".toList
        if encoding = "base64".toList ∧ payload.content.isSome then
          decodeBase64Utf8 (payload.content.getD [])
        else []
      else []
    let commits :=
      if commits_resp.status_code = 200 then
        commits_resp.body.map (fun item =>
          let commit := item.commit.getD {}
          ({ message := commit.message.getD [],
             date := (commit.author.getD {}).date } : CommitEntry))
      else []
    .ok { name := repo_data.name, full_name := repo_data.full_name,
          description := repo_data.description, html_url := repo_data.html_url,
          default_branch := repo_data.default_branch,
          license := (repo_data.license.getD {}).name,
          stars := repo_data.stargazers_count.getD 0,
          forks := repo_data.forks_count.getD 0,
          open_issues := repo_data.open_issues_count.getD 0,
          watchers := repo_data.subscribers_count.getD 0,
          language := repo_data.language,
          topics := repo_data.topics.getD [],
          languages := languages_data,
          recent_commits := commits,
          readme_excerpt := some (readme_text.take 4000) }

/-- C4: the three auxiliary calls are best-effort — on a non-success
status their facet degrades to the empty mapping, empty string, or empty
sequence while the fetch still succeeds — and the metadata call is
load-bearing: a non-success status aborts the fetch with an error
carrying the status code and response body. -/
theorem c4_fetch_policy (repo_resp : HttpResp RepoMeta)
    (languages_resp : HttpResp (List (Str × Nat)))
    (readme_resp : HttpResp ReadmePayload)
    (commits_resp : HttpResp (List CommitsItem)) :
    (repo_resp.status_code = 200 →
      ∃ snap, fetch_repository_snapshot repo_resp languages_resp readme_resp commits_resp
          = .ok snap
        ∧ (languages_resp.status_code ≠ 200 → snap.languages = [])
        ∧ (readme_resp.status_code ≠ 200 → snap.readme_excerpt = some [])
        ∧ (commits_resp.status_code ≠ 200 → snap.recent_commits = []))
    ∧ (repo_resp.status_code ≠ 200 →
      fetch_repository_snapshot repo_resp languages_resp readme_resp commits_resp
        = .error ("Unable to retrieve repository: ".toList
            ++ natStr repo_resp.status_code ++ ' ' :: repo_resp.text)) := by
  constructor
  · intro h200
    rw [fetch_repository_snapshot, if_neg (by rw [h200]; simp)]
    refine ⟨_, rfl, ?_, ?_, ?_⟩
    · intro hlang
      simp only [if_neg hlang]
    · intro hread
      simp only [if_neg hread]
      rfl
    · intro hcomm
      simp only [if_neg hcomm]
  · intro hfail
    rw [fetch_repository_snapshot, if_pos hfail]

/-- C4 witness: metadata succeeding while the three auxiliary calls fail
yields a snapshot with empty facets; a failing metadata call yields the
carrying error. -/
theorem c4_witness :
    (∃ snap, fetch_repository_snapshot
        ⟨200, [], {}⟩ ⟨404, [], []⟩ ⟨404, [], {}⟩ ⟨500, [], []⟩ = .ok snap
      ∧ snap.languages = [] ∧ snap.readme_excerpt = some [] ∧ snap.recent_commits = [])
    ∧ fetch_repository_snapshot ⟨404, "Not Found".toList, {}⟩ ⟨200, [], []⟩
        ⟨200, [], {}⟩ ⟨200, [], []⟩
        = .error "Unable to retrieve repository: 404 Not Found".toList := by
  have h := c4_fetch_policy ⟨200, [], {}⟩ ⟨404, [], []⟩ ⟨404, [], {}⟩ ⟨500, [], []⟩
  have h2 := c4_fetch_policy ⟨404, "Not Found".toList, {}⟩ ⟨200, [], []⟩
    ⟨200, [], {}⟩ ⟨200, [], []⟩
  constructor
  · obtain ⟨snap, hsnap, hl, hr, hc⟩ := h.1 rfl
    exact ⟨snap, hsnap, hl (by decide), hr (by decide), hc (by decide)⟩
  · have := h2.2 (by decide)
    rw [this]
    rw [show ("Unable to retrieve repository: 404 Not Found".toList : Str)
        = "Unable to retrieve repository: ".toList ++ natStr 404
          ++ ' ' :: "Not Found".toList by decide]
